import Mathlib

/-!
# Verification of the `epcontrol` ESC/POS receipt printer

A shallow embedding of `src/escpos_printer.py` (together with the constant
tables of `src/const.py`).  PIL images are modelled as rectangular grids with
a total pixel function; the external collaborators (font metrics and glyph
drawing, the QR symbol generator, and PIL's resampling) are passed in as
explicit function parameters, mirroring the spec's view of them as external
services specified only at their interface boundary.
-/

namespace EpControl

/-- A single-channel (PIL mode "L") canvas: a `width × height` grid of 8-bit
intensities.  `pixel x y` is the intensity at column `x`, row `y`; values
outside the rectangle are irrelevant to every operation below. -/
structure GrayImg where
  width : Nat
  height : Nat
  pixel : Nat → Nat → Nat

/-- A bilevel (PIL mode "1") canvas.  Mode "1" stores one bit per pixel and
presents it as intensity 0 (black) or 255 (white); we store the bit, with
`black x y = true` meaning the stored value is 0. -/
structure BinImg where
  width : Nat
  height : Nat
  black : Nat → Nat → Bool

/-- The intensity a mode "1" image reports for a pixel: 0 when black, 255
when white. -/
def BinImg.intensity (img : BinImg) (x y : Nat) : Nat :=
  if img.black x y then 0 else 255

/-- `image.point(lambda p: 0 if p < threshold else 255, mode="1")` with
`threshold = 200` (`EscPosPrinter._image_to_escpos`, the binarization
step). -/
def binarize (img : GrayImg) : BinImg :=
  ⟨img.width, img.height, fun x y => decide (img.pixel x y < 200)⟩

/-- `n.to_bytes(2, "little")`.  (Python raises `OverflowError` for
`n ≥ 2^16`; every value the encoder produces in practice is far below that,
and the model truncates.) -/
def toBytesLE2 (n : Nat) : List Nat :=
  [n % 256, n / 256 % 256]

/-- The inner bit loop of `_image_to_escpos`:
`byte = 0; for bit in range(8): if pixels[x_byte*8+bit, y] == 0: byte |= 1 << (7-bit)`.
A mode "1" pixel compares equal to 0 exactly when it is black. -/
def packByte (black : Nat → Nat → Bool) (y xb : Nat) : Nat :=
  (List.range 8).foldl
    (fun byte bit => if black (xb * 8 + bit) y then byte ||| (1 <<< (7 - bit)) else byte) 0

/-- The row/byte loops of `_image_to_escpos`:
`for y in range(height): for x_byte in range(width // 8): ... data.append(byte)`. -/
def packBits (black : Nat → Nat → Bool) (width height : Nat) : List Nat :=
  (List.range height).flatMap fun y =>
    (List.range (width / 8)).map fun xb => packByte black y xb

/-- The external resampler applied to a mode "1" image
(`image.resize((new_width, height))`; PIL keeps mode "1", so the result is
again bilevel).  The model only fixes the new pixel grid; the dimensions of
the result are the requested ones. -/
abbrev BinResize := BinImg → Nat → Nat → (Nat → Nat → Bool)

/-- `EscPosPrinter._image_to_escpos` (minus the final `self.commands += data`,
which the session model performs): binarize, pad the width to a multiple of 8
by resizing, then emit `GS v 0` = `1D 76 30 00`, `width//8` and `height` as
2-byte little-endian integers, and the packed bits. -/
def image_to_escpos (resize : BinResize) (image0 : GrayImg) : List Nat :=
  let image := binarize image0
  let width := image.width
  let height := image.height
  let padded : BinImg × Nat :=
    if width % 8 ≠ 0 then
      -- new_width = (width + 7) & ~7, i.e. (width + 7) with the low 3 bits cleared
      let new_width := (width + 7) / 8 * 8
      (⟨new_width, height, resize image new_width height⟩, new_width)
    else (image, width)
  [0x1d, 0x76, 0x30, 0x00]
    ++ toBytesLE2 (padded.2 / 8) ++ toBytesLE2 height
    ++ packBits padded.1.black padded.2 height

/-! ### Specification-side descriptions of the raster command (C1, C2) -/

/-- The padded width named by the spec: `ceil(width/8)*8` when `width` is not
a multiple of 8, `width` itself otherwise. -/
def paddedWidth (w : Nat) : Nat :=
  if w % 8 = 0 then w else (w + 7) / 8 * 8

/-- The canvas whose pixels the data bytes describe: the binarized canvas,
horizontally resized to the padded width when the width needed padding. -/
def paddedCanvas (resize : BinResize) (img : GrayImg) : BinImg :=
  if img.width % 8 = 0 then binarize img
  else ⟨paddedWidth img.width, img.height,
        resize (binarize img) (paddedWidth img.width) img.height⟩

/-- The data section as the spec words it: `rowBytes * height` bytes, one byte
per 8 horizontally consecutive pixels of one row scanned left-to-right,
MSB-first (leftmost pixel in bit 7), a bit being 1 exactly when the pixel's
intensity is below 200. -/
def rasterDataSpec (canvas : BinImg) (rowBytes height : Nat) : List Nat :=
  (List.range height).flatMap fun y =>
    (List.range rowBytes).map fun xb =>
      ∑ b ∈ Finset.range 8, if canvas.intensity (xb * 8 + b) y < 200 then 2 ^ (7 - b) else 0

/-- A concrete 385 × 1 all-white canvas. -/
def imgW385 : GrayImg := ⟨385, 1, fun _ _ => 255⟩

/-- A concrete stand-in for the external bilevel resampler. -/
def resize0 : BinResize := fun _ _ _ => fun _ _ => false

/-! ### Text wrapping (`EscPosPrinter._render_text`, lines loop) -/

/-- One step of the greedy wrap loop of `EscPosPrinter._render_text`:
`test_line = current_line + char; if bbox(test_line)[2] > available: close the
current line and restart from char, else current_line = test_line`.  The state
is `(lines, current_line)`; Python strings are modelled as `List Char`.
(The source stores `(line, line_width)` pairs; the widths are never read
afterwards and are dropped here.) -/
def wrapStep (measure : List Char → Int) (avail : Int)
    (st : List (List Char) × List Char) (c : Char) : List (List Char) × List Char :=
  let test := st.2 ++ [c]
  if measure test > avail then (st.1 ++ [st.2], [c]) else (st.1, test)

/-- The whole wrap loop of `EscPosPrinter._render_text`, including the final
`if current_line: lines.append(...)` flush. -/
def wrapLines (measure : List Char → Int) (avail : Int) (text : List Char) :
    List (List Char) :=
  let st := text.foldl (wrapStep measure avail) ([], [])
  if st.2 ≠ [] then st.1 ++ [st.2] else st.1

/-- The relation between a closed line and the line after it: the later line
is nonempty and the closed line extended by the later line's first character
measured wider than the available width (that is exactly why it closed). -/
def BoundaryR (measure : List Char → Int) (avail : Int) (x y : List Char) : Prop :=
  y ≠ [] ∧ measure (x ++ [y.head!]) > avail

/-- Every prefix of `l` of length at least 2 measures within the available
width: a line grows one character at a time and only ever grows through
candidates that fitted. -/
def PrefixFit (measure : List Char → Int) (avail : Int) (l : List Char) : Prop :=
  ∀ n, 2 ≤ n → n ≤ l.length → measure (l.take n) ≤ avail

/-- Loop invariant of the greedy wrap: the processed characters are exactly
the closed lines followed by the accumulator, adjacent closed lines satisfy
the boundary relation, the accumulator is nonempty (and satisfies the
boundary relation with the last closed line) as soon as a line has closed,
and closed lines and accumulator only grew through fitting candidates. -/
structure WrapInv (measure : List Char → Int) (avail : Int) (processed : List Char)
    (st : List (List Char) × List Char) : Prop where
  joinEq : st.1.flatten ++ st.2 = processed
  chain : List.Chain' (BoundaryR measure avail) st.1
  lastBoundary : ∀ x ∈ st.1.getLast?, BoundaryR measure avail x st.2
  fitLines : ∀ l ∈ st.1, PrefixFit measure avail l
  fitCur : PrefixFit measure avail st.2

/-! ### Canvas operations (PIL glue) -/

/-- `Image.new("L", (w, h), color=c)`. -/
def GrayImg.new (w h c : Nat) : GrayImg := ⟨w, h, fun _ _ => c⟩

/-- `base.paste(sub, (ox, oy))`: the pasted region replaces the base pixels,
anything falling outside the base rectangle is silently clipped (the base
keeps its dimensions). -/
def GrayImg.paste (base sub : GrayImg) (ox oy : Int) : GrayImg :=
  { base with
    pixel := fun x y =>
      if ox ≤ (x : Int) ∧ (x : Int) < ox + sub.width ∧ oy ≤ (y : Int) ∧ (y : Int) < oy + sub.height
      then sub.pixel ((x : Int) - ox).toNat ((y : Int) - oy).toNat
      else base.pixel x y }

/-- The font-metrics result of `draw.textbbox((0, 0), text, font)`: the four
components `bbox[0] .. bbox[3]`. -/
structure BBox where
  left : Int
  top : Int
  right : Int
  bottom : Int

/-- The external collaborators, packaged: font metrics and glyph painting
(PIL `ImageFont`/`ImageDraw`; the try/except font fallback happens inside the
adapter), the QR symbol generator (`qrcode` with version=1, ERROR_CORRECT_L,
fit=True, converted to mode "L"), and PIL's resampling for mode "L" and mode
"1" images.  Each is an arbitrary but fixed pure function; resampling is
modelled by its pixel grid only, so a resized canvas has exactly the
requested dimensions. -/
structure Ops where
  bbox : String → Nat → String → BBox
  drawText : (Nat → Nat → Nat) → Int → Int → String → Nat → String → (Nat → Nat → Nat)
  qrImg : String → Nat → Nat → GrayImg
  resizePix : GrayImg → Nat → Nat → (Nat → Nat → Nat)
  resizeBin : BinResize

/-- `img.resize((w, h))` for a mode "L" canvas. -/
def GrayImg.resizeWith (ops : Ops) (img : GrayImg) (w h : Nat) : GrayImg :=
  ⟨w, h, ops.resizePix img w h⟩

/-! ### Content nodes (the dataclasses of `escpos_printer.py`) -/

/-- `Text` dataclass. -/
structure TextN where
  text : String
  align : String
  font_size : Nat
  font : String
  line_spacing : Nat

/-- `QrCode` dataclass. -/
structure QrCodeN where
  data : String
  box_size : Nat
  border : Nat

/-- `NewLine` dataclass. -/
structure NewLineN where
  height : Nat
  lines : Nat

/-- `ImageContent` dataclass.  `max_width = none` models Python `None`;
`some n` a (non-negative) `int`. -/
structure ImageN where
  image : GrayImg
  max_width : Option Nat

mutual
/-- An element of `Flex.items`: `Text | QrCode | ImageContent | Flex`. -/
inductive FItem where
  | text (t : TextN)
  | qr (q : QrCodeN)
  | image (i : ImageN)
  | flex (f : FlexN)

/-- `Flex` dataclass. -/
inductive FlexN where
  | mk (items : List FItem) (item_gap : Nat) (row_gap : Nat)
       (h_align : String) (v_align : String) (max_width : Option Nat)
end

def FlexN.items : FlexN → List FItem
  | .mk i _ _ _ _ _ => i

def FlexN.item_gap : FlexN → Nat
  | .mk _ g _ _ _ _ => g

def FlexN.row_gap : FlexN → Nat
  | .mk _ _ g _ _ _ => g

def FlexN.h_align : FlexN → String
  | .mk _ _ _ h _ _ => h

def FlexN.v_align : FlexN → String
  | .mk _ _ _ _ v _ => v

def FlexN.max_width : FlexN → Option Nat
  | .mk _ _ _ _ _ m => m

/-- The `ContentUnion` of the session's content list:
`Text | QrCode | NewLine | ImageContent | Flex`. -/
inductive ContentN where
  | text (t : TextN)
  | qr (q : QrCodeN)
  | newline (n : NewLineN)
  | image (i : ImageN)
  | flex (f : FlexN)

/-! ### Printer-side block renderers (`EscPosPrinter._render_*`) -/

/-- Centering onto a paper-wide canvas:
`final = Image.new("L", (paper_width, img.height), 255);`
`final.paste(img, ((paper_width - img.width) // 2, 0))` — the pattern shared
by `_render_qrcode` and `_render_image`. -/
def centerCanvas (paper_width : Nat) (img : GrayImg) : GrayImg :=
  (GrayImg.new paper_width img.height 255).paste img
    (((paper_width : Int) - (img.width : Int)).fdiv 2) 0

/-- The per-line rendering step of `EscPosPrinter._render_text`: one wrapped
line onto a paper-wide canvas of height `bbox[3] - bbox[1]`, drawn at the
alignment-dependent x-offset and at `-bbox[1]`; an unsupported alignment
raises `ValueError` here, once per rendered line.  (PIL would reject a
negative canvas height; `Int.toNat` stands in for that unreachable case.) -/
def renderTextLine (ops : Ops) (paper_width padding_x : Nat) (t : TextN)
    (lineCs : List Char) : Except String GrayImg := do
  let line := String.mk lineCs
  let box := ops.bbox t.font t.font_size line
  let actual_line_width := box.right
  let line_height := (box.bottom - box.top).toNat
  let x_offset : Int ←
    if t.align = "left" then pure (padding_x : Int)
    else if t.align = "center" then pure (((paper_width : Int) - actual_line_width).fdiv 2)
    else if t.align = "right" then
      pure ((paper_width : Int) - actual_line_width - (padding_x : Int))
    else Except.error ("Unsupported alignment: " ++ t.align)
  let base := GrayImg.new paper_width line_height 255
  pure { base with
          pixel := ops.drawText base.pixel x_offset (-box.top) t.font t.font_size line }

/-- `EscPosPrinter._render_text`: wrap the text against
`paper_width - 2 * padding_x`, then render each line. -/
def escposRenderText (ops : Ops) (paper_width padding_x : Nat) (t : TextN) :
    Except String (List GrayImg) :=
  let measure := fun cs => (ops.bbox t.font t.font_size (String.mk cs)).right
  let avail : Int := (paper_width : Int) - 2 * (padding_x : Int)
  let lines := wrapLines measure avail t.text.toList
  lines.mapM (renderTextLine ops paper_width padding_x t)

/-- `EscPosPrinter._render_qrcode`: the external QR image, shrunk to a
`(paper_width - 2*padding_x)`-sided square when wider than that, then
centered on a paper-wide canvas. -/
def escposRenderQr (ops : Ops) (paper_width padding_x : Nat) (q : QrCodeN) : GrayImg :=
  let qr_img := ops.qrImg q.data q.box_size q.border
  let availI : Int := (paper_width : Int) - 2 * (padding_x : Int)
  let qr_img :=
    if (qr_img.width : Int) > availI then
      GrayImg.resizeWith ops qr_img availI.toNat availI.toNat
    else qr_img
  centerCanvas paper_width qr_img

/-- `EscPosPrinter._render_newline`: a blank paper-wide canvas of height
`height * lines`. -/
def escposRenderNewline (paper_width : Nat) (n : NewLineN) : GrayImg :=
  GrayImg.new paper_width (n.height * n.lines) 255

/-- Python truthiness of the `max_width : int | None` field: falsy exactly
for `None` and `0`. -/
def truthy : Option Nat → Bool
  | none => false
  | some n => n != 0

/-- `EscPosPrinter._render_image`.  Returns the content node as well, because
the source MUTATES it: when `max_width` is truthy and exceeds
`paper_width - 2*padding_x` it is clamped in place before being used as the
resize target.  `int(img.height * (target / img.width))` is modelled as the
integer quotient `img.height * target / img.width` (the source computes it
through a float ratio). -/
def escposRenderImage (ops : Ops) (paper_width padding_x : Nat) (node : ImageN) :
    ImageN × GrayImg :=
  let img := node.image
  let availI : Int := (paper_width : Int) - 2 * (padding_x : Int)
  if truthy node.max_width then
    let mw0 := node.max_width.getD 0
    let mw := if (mw0 : Int) > availI then availI.toNat else mw0
    let node := { node with max_width := some mw }
    let img :=
      if img.width > mw then
        GrayImg.resizeWith ops img mw (img.height * mw / img.width)
      else img
    (node, centerCanvas paper_width img)
  else
    let img :=
      if (img.width : Int) > availI then
        GrayImg.resizeWith ops img availI.toNat (img.height * availI.toNat / img.width)
      else img
    (node, centerCanvas paper_width img)

/-! ### `FlexRenderer` -/

/-- One step of the wrap loop of `FlexRenderer._render_text`.  The state is
`(lines, current_line, available_width)`: the available width starts at
`max_width - current_x` (or infinity when `max_width` is `None`, modelled as
`none` — then the `bbox[2] > inf` test is always false) and is reset to
`self.max_width` after the first wrap. -/
def flexWrapStep (measure : List Char → Int) (selfMaxI : Option Int)
    (st : List (List Char) × List Char × Option Int) (c : Char) :
    List (List Char) × List Char × Option Int :=
  let test := st.2.1 ++ [c]
  let over := match st.2.2 with
    | none => false
    | some a => decide (measure test > a)
  if over then (st.1 ++ [st.2.1], [c], selfMaxI) else (st.1, test, st.2.2)

/-- The wrap loop of `FlexRenderer._render_text`, including the final flush.
(As in the printer-side wrap, the stored per-line widths are never read and
are dropped.) -/
def flexWrap (measure : List Char → Int) (selfMaxI avail0 : Option Int)
    (text : List Char) : List (List Char) :=
  let st := text.foldl (flexWrapStep measure selfMaxI) ([], [], avail0)
  if st.2.1 ≠ [] then st.1 ++ [st.2.1] else st.1

/-- `FlexRenderer._render_text`: wrap starting from `current_x`, then render
each line at its own actual width (`bbox[2]`) and height `bbox[3] - bbox[1]`,
ignoring `Text.align` and `Text.line_spacing`. -/
def flexRenderText (ops : Ops) (self_max : Option Nat) (t : TextN) (current_x : Int) :
    List GrayImg :=
  let measure := fun cs => (ops.bbox t.font t.font_size (String.mk cs)).right
  let selfMaxI : Option Int := self_max.map (fun m => (m : Int))
  let avail0 : Option Int := self_max.map (fun m => (m : Int) - current_x)
  let lines := flexWrap measure selfMaxI avail0 t.text.toList
  lines.map fun lineCs =>
    let line := String.mk lineCs
    let box := ops.bbox t.font t.font_size line
    let base := GrayImg.new box.right.toNat (box.bottom - box.top).toNat 255
    { base with pixel := ops.drawText base.pixel 0 (-box.top) t.font t.font_size line }

/-- `FlexRenderer._render_qrcode`: exactly the external QR image, at its
natural size — no rescaling against any container width. -/
def flexRenderQr (ops : Ops) (q : QrCodeN) : GrayImg :=
  ops.qrImg q.data q.box_size q.border

/-- `FlexRenderer._render_image`: scales down only against the node's own
truthy `max_width`, never against the container; does not mutate the node. -/
def flexRenderImage (ops : Ops) (node : ImageN) : GrayImg :=
  let img := node.image
  if truthy node.max_width && decide (img.width > node.max_width.getD 0) then
    GrayImg.resizeWith ops img (node.max_width.getD 0)
      (img.height * node.max_width.getD 0 / img.width)
  else img

/-- The running state of the placement loop of `FlexRenderer.render`:
the parallel `item_positions`/`rendered_items` lists (zipped), `current_x`,
`current_y`, `max_row_height` and `rendered_width`. -/
structure LoopState where
  placed : List ((Int × Int) × GrayImg)
  current_x : Int
  current_y : Int
  max_row_height : Int
  rendered_width : Int

/-- Moving to the next row: `current_x = 0;`
`current_y += max_row_height + row_gap; max_row_height = 0`. -/
def rowWrap (row_gap : Nat) (s : LoopState) : LoopState :=
  { s with current_x := 0,
           current_y := s.current_y + s.max_row_height + (row_gap : Int),
           max_row_height := 0 }

/-- The placement block shared by all four branches of the loop, after the
row-wrap decision: record `max_row_height`, append position and item, advance
`current_x` by `item_width + item_gap`, and (in the `Text`/`QrCode`/`Image`
branches only, `withRW = true`) update `rendered_width`. -/
def placeAfterCheck (item_gap : Nat) (img : GrayImg) (withRW : Bool) (s : LoopState) :
    LoopState :=
  let new_x := s.current_x + (img.width : Int) + (item_gap : Int)
  { placed := s.placed ++ [((s.current_x, s.current_y), img)]
    current_x := new_x
    current_y := s.current_y
    max_row_height := max s.max_row_height (img.height : Int)
    rendered_width := if withRW then max s.rendered_width new_x else s.rendered_width }

/-- `if self.max_width and current_x + item_width > self.max_width:` — the
guarded row-wrap test of the `Text`, `QrCode` and `Image` branches; `None`
and `0` are falsy, so the test is skipped for them. -/
def wrapNeeded (self_max : Option Nat) (cx : Int) (w : Nat) : Bool :=
  match self_max with
  | none => false
  | some m => decide (m ≠ 0) && decide (cx + (w : Int) > (m : Int))

/-- Guarded placement of one sub-canvas (`Text` line, `QrCode` or `Image`). -/
def placeGuarded (self_max : Option Nat) (item_gap row_gap : Nat) (img : GrayImg)
    (s : LoopState) : LoopState :=
  let s := if wrapNeeded self_max s.current_x img.width then rowWrap row_gap s else s
  placeAfterCheck item_gap img true s

/-- The dictionary keys of `setdefault`-built row maps, in insertion order
(`y` values in first-occurrence order). -/
def keysInOrder (placed : List ((Int × Int) × GrayImg)) : List Int :=
  placed.foldl (fun acc p => if p.1.2 ∈ acc then acc else acc ++ [p.1.2]) []

/-- The `horizontal_align == "right"` post-pass: every item of a row is
shifted by `self.max_width - (row_width - item_gap)`.  With
`max_width = None` the subtraction raises `TypeError` — but only if there is
at least one item to iterate over. -/
def rightAlignPass (self_max : Option Nat) (item_gap : Nat)
    (placed : List ((Int × Int) × GrayImg)) :
    Except String (List ((Int × Int) × GrayImg)) :=
  placed.mapM fun p => do
    match self_max with
    | none => Except.error "TypeError: unsupported operand types for int and NoneType"
    | some m =>
      let y := p.1.2
      let row_width :=
        (placed.foldl
          (fun acc q => if q.1.2 = y then acc + (q.2.width : Int) + (item_gap : Int) else acc)
          0) - (item_gap : Int)
      pure ((p.1.1 + ((m : Int) - row_width), y), p.2)

/-- The positional lookup of the `between` pass: scan the (already partially
updated) position list for the first entry at `(original_x, y)` and move it
to `new_x`; no-op when nothing matches. -/
def updateFirstMatching :
    List ((Int × Int) × GrayImg) → Int → Int → Int → List ((Int × Int) × GrayImg)
  | [], _, _, _ => []
  | p :: rest, y, ox, nx =>
    if p.1.2 = y ∧ p.1.1 = ox then ((nx, y), p.2) :: rest
    else p :: updateFirstMatching rest y ox nx

/-- The `horizontal_align == "between"` post-pass: rows are grouped from the
ORIGINAL positions; per row, `extra_gap = (max_width - Σ widths) // gaps`
(0 when the row holds one item; `TypeError` when `max_width` is `None` and
there are gaps), then items are re-laid from `x = 0` advancing by
`item_width + extra_gap`, each moved through the positional lookup. -/
def betweenAlignPass (self_max : Option Nat)
    (placed0 : List ((Int × Int) × GrayImg)) :
    Except String (List ((Int × Int) × GrayImg)) :=
  (keysInOrder placed0).foldlM
    (fun placed y => do
      let items_in_row := (placed0.filter (fun p => p.1.2 = y)).map (fun p => (p.1.1, p.2))
      let total_row_width := items_in_row.foldl (fun a q => a + (q.2.width : Int)) 0
      let total_gaps : Int := (items_in_row.length : Int) - 1
      let extra_gap : Int ←
        if total_gaps > 0 then
          match self_max with
          | none => Except.error "TypeError: unsupported operand types for int and NoneType"
          | some m => pure (((m : Int) - total_row_width).fdiv total_gaps)
        else pure 0
      let upd := items_in_row.foldl
        (fun (acc : List ((Int × Int) × GrayImg) × Int) q =>
          (updateFirstMatching acc.1 y q.1 acc.2, acc.2 + (q.2.width : Int) + extra_gap))
        (placed, 0)
      pure upd.1)
    placed0

/-- The `vertical_align` post-pass: `center`/`bottom` shift each item within
its row band by `(row_height - item_height) // 2` or the full difference;
anything else (including `top`) leaves positions unchanged. -/
def vAlignPass (v_align : String) (placed : List ((Int × Int) × GrayImg)) :
    List ((Int × Int) × GrayImg) :=
  if v_align = "center" ∨ v_align = "bottom" then
    placed.map fun p =>
      let y := p.1.2
      let row_height := placed.foldl
        (fun acc q => if q.1.2 = y then max acc (q.2.height : Int) else acc) 0
      let offset :=
        if v_align = "center" then (row_height - (p.2.height : Int)).fdiv 2
        else if v_align = "bottom" then row_height - (p.2.height : Int)
        else 0
      ((p.1.1, y + offset), p.2)
  else placed

/-- Dispatch of the horizontal alignment post-pass; any value other than
`right` and `between` (including `left`) leaves positions unchanged. -/
def hAlignPass (self_max : Option Nat) (item_gap : Nat) (h_align : String)
    (placed : List ((Int × Int) × GrayImg)) :
    Except String (List ((Int × Int) × GrayImg)) :=
  if h_align = "right" then rightAlignPass self_max item_gap placed
  else if h_align = "between" then betweenAlignPass self_max placed
  else .ok placed

/-- What `FlexRenderer.render` has computed just before creating the final
canvas: the aligned placements, `total_height`, and the running
`rendered_width` (used as the canvas width when `max_width` is `None`). -/
structure FlexLayoutResult where
  placed : List ((Int × Int) × GrayImg)
  total_height : Int
  rendered_width : Int

/-- The final canvas of `FlexRenderer.render`: width `max_width` (or the
measured `rendered_width` when unconstrained), height `total_height`, every
placed sub-canvas pasted at its position. -/
def assembleFlex (self_max : Option Nat) (r : FlexLayoutResult) : GrayImg :=
  let image_width : Nat :=
    match self_max with
    | none => r.rendered_width.toNat
    | some m => m
  r.placed.foldl (fun img p => img.paste p.2 p.1.1 p.1.2)
    (GrayImg.new image_width r.total_height.toNat 255)

mutual
/-- The item loop of `FlexRenderer.render` over the remaining items. -/
def renderItems (ops : Ops) (self_max : Option Nat) (item_gap row_gap : Nat)
    (l : List FItem) (s : LoopState) : Except String LoopState :=
  match l with
  | [] => .ok s
  | item :: rest => do
      let s2 ← renderItem ops self_max item_gap row_gap item s
      renderItems ops self_max item_gap row_gap rest s2
termination_by (sizeOf l, 1)

/-- One iteration of the item loop.  `Text` places each wrapped line with the
guarded row-wrap check; `QrCode`/`Image` place one sub-canvas likewise; a
nested `Flex` is rendered recursively against its own `max_width` and then
placed through the UNGUARDED comparison `current_x + item_width >
self.max_width`, which raises `TypeError` when `self.max_width` is `None`
(and never updates `rendered_width`). -/
def renderItem (ops : Ops) (self_max : Option Nat) (item_gap row_gap : Nat)
    (item : FItem) (s : LoopState) : Except String LoopState :=
  match item with
  | .text t =>
      let line_images := flexRenderText ops self_max t s.current_x
      .ok (line_images.foldl (fun st img => placeGuarded self_max item_gap row_gap img st) s)
  | .qr q => .ok (placeGuarded self_max item_gap row_gap (flexRenderQr ops q) s)
  | .image i => .ok (placeGuarded self_max item_gap row_gap (flexRenderImage ops i) s)
  | .flex f => do
      let lay ← flexLayout ops f f.max_width
      let nested := assembleFlex f.max_width lay
      match self_max with
      | none => Except.error "TypeError: not supported between instances of int and NoneType"
      | some m =>
        let s2 := if s.current_x + (nested.width : Int) > (m : Int) then rowWrap row_gap s else s
        .ok (placeAfterCheck item_gap nested false s2)
termination_by (sizeOf item, 0)

/-- `FlexRenderer.render` up to (not including) the final canvas assembly:
run the placement loop from a fresh state, compute
`total_height = current_y + max_row_height`, then the horizontal and vertical
alignment post-passes. -/
def flexLayout (ops : Ops) (f : FlexN) (self_max : Option Nat) :
    Except String FlexLayoutResult :=
  match f with
  | .mk items item_gap row_gap h_align v_align _ => do
      let s ← renderItems ops self_max item_gap row_gap items ⟨[], 0, 0, 0, 0⟩
      let total_height := s.current_y + s.max_row_height
      let placed ← hAlignPass self_max item_gap h_align s.placed
      let placed := vAlignPass v_align placed
      .ok ⟨placed, total_height, s.rendered_width⟩
termination_by (sizeOf f, 2)
end

/-- `FlexRenderer(flex, max_width).render()` in full. -/
def flexRenderFull (ops : Ops) (f : FlexN) (self_max : Option Nat) :
    Except String GrayImg := do
  let lay ← flexLayout ops f self_max
  .ok (assembleFlex self_max lay)

/-! ### The compositor (`EscPosPrinter._convert_contents`) and the session -/

/-- `_RenderedBlock`: a rendered block image together with its x offset. -/
structure RenderedBlock where
  image : GrayImg
  x : Nat

/-- The body of the `for content in self.contents` loop of
`_convert_contents` for one content node: the blocks it appends (in order),
together with the — possibly mutated — content node.  For `Text`, a blank
spacing block of height `line_spacing` is inserted BEFORE every line except
the first, only when the text wrapped to more than one line and
`line_spacing > 0`; nothing is appended after the last line.  A top-level
`Flex` renders against `paper_width - 2*padding_x` and is placed at
x = `padding_x`. -/
def convertOne (ops : Ops) (paper_width padding_x : Nat) (c : ContentN) :
    Except String (ContentN × List RenderedBlock) :=
  match c with
  | .text t => do
      let blocks ← escposRenderText ops paper_width padding_x t
      let withSpacing := blocks.enum.flatMap fun ib =>
        if blocks.length > 1 ∧ ib.1 > 0 ∧ t.line_spacing > 0 then
          [⟨escposRenderNewline paper_width ⟨t.line_spacing, 1⟩, 0⟩, ⟨ib.2, 0⟩]
        else [⟨ib.2, 0⟩]
      .ok (.text t, withSpacing)
  | .qr q => .ok (.qr q, [⟨escposRenderQr ops paper_width padding_x q, 0⟩])
  | .newline n => .ok (.newline n, [⟨escposRenderNewline paper_width n, 0⟩])
  | .image i =>
      let r := escposRenderImage ops paper_width padding_x i
      .ok (.image r.1, [⟨r.2, 0⟩])
  | .flex f => do
      let block ← flexRenderFull ops f (some (paper_width - 2 * padding_x))
      .ok (.flex f, [⟨block, padding_x⟩])

/-- `EscPosPrinter._convert_contents`: render every node to its blocks,
stack the blocks top-to-bottom on a fresh paper-wide canvas of height
`Σ block heights`, each pasted at `(block.x, y_offset)`.  Returns the (block
rendering may have mutated it) content list alongside the canvas. -/
def convertContents (ops : Ops) (paper_width padding_x : Nat) (cs : List ContentN) :
    Except String (List ContentN × GrayImg) := do
  let results ← cs.mapM (convertOne ops paper_width padding_x)
  let blocks := results.flatMap (·.2)
  let total_height := blocks.foldl (fun a b => a + b.image.height) 0
  let base := GrayImg.new paper_width total_height 255
  let final := (blocks.foldl
    (fun (acc : GrayImg × Nat) b =>
      (acc.1.paste b.image (b.x : Int) (acc.2 : Int), acc.2 + b.image.height))
    (base, 0)).1
  .ok (results.map (·.1), final)

/-! ### Configuration and the printer session -/

/-- `const.py`: the paper-width table, `"58mm" ↦ 384`, `"80mm" ↦ 512` dots.
(`const.py` spells the binding `DEFAULT_PAPER_WIDTH`; `escpos_printer.py`
imports it under the name `PAPER_WIDTH`.) -/
def PAPER_WIDTH : String → Option Nat := fun k =>
  if k = "58mm" then some 384
  else if k = "80mm" then some 512
  else none

/-- `const.py`: the named font sizes. -/
def FONT_SIZES : String → Option Nat := fun k =>
  if k = "xxs" then some 16
  else if k = "xs" then some 20
  else if k = "sm" then some 24
  else if k = "md" then some 28
  else if k = "lg" then some 32
  else if k = "xl" then some 36
  else if k = "xxl" then some 40
  else none

/-- `UsbInfo` dataclass (macOS connection parameters). -/
structure UsbInfoN where
  vendor_id : Nat
  product_id : Nat
  interface_no : Nat
  in_ep : Nat
  out_ep : Nat

/-- `PrinterConfig` dataclass (defaults: `platform = None`,
`padding_x = 10`). -/
structure PrinterConfig where
  printer_name : String
  paper_width : String
  default_font : String
  platform : Option String
  padding_x : Nat

/-- The state of an `EscPosPrinter` session. -/
structure PState where
  printer_name : String
  paper_width : Nat
  default_font : String
  padding_x : Nat
  platform : String
  usb_info : Option UsbInfoN
  contents : List ContentN
  commands : List Nat

/-- `EscPosPrinter._validate_config`. -/
def validate_config (config : PrinterConfig) : Except String Unit :=
  if (PAPER_WIDTH config.paper_width).isNone then
    Except.error "Invalid Config: paper_width. Choose 58mm or 80mm."
  else if (match config.platform with
      | some p => decide (p ≠ "windows" ∧ p ≠ "linux" ∧ p ≠ "macos")
      | none => false) then
    Except.error "Invalid Config: Unsupported platform."
  else .ok ()

/-- `EscPosPrinter.__init__`: validate the configuration, resolve the paper
width preset, auto-detect the platform from `sys.platform` when it was left
unset, and require USB info when the CONFIG names macOS explicitly.  The
session starts with an empty content list and an empty command buffer. -/
def mkPrinter (config : PrinterConfig) (usb_info : Option UsbInfoN)
    (sysPlatform : String) : Except String PState := do
  let _ ← validate_config config
  let paper ← match PAPER_WIDTH config.paper_width with
    | some w => pure w
    | none => Except.error "KeyError"
  let platform ← match config.platform with
    | none =>
        if sysPlatform.startsWith "win" then pure "windows"
        else if sysPlatform.startsWith "linux" then pure "linux"
        else if sysPlatform.startsWith "darwin" then pure "macos"
        else Except.error ("Unsupported platform: " ++ sysPlatform)
    | some p => pure p
  if config.platform = some "macos" ∧ usb_info.isNone then
    Except.error "macos_connect must be provided for macOS platform."
  else
    .ok ⟨config.printer_name, paper, config.default_font, config.padding_x, platform,
         usb_info, [], []⟩

/-- `EscPosPrinter.text` (defaults: `align="left"`,
`font_size=FONT_SIZES["md"]`, `font=None` meaning the session default,
`line_spacing=4`): appends a `Text` node, validating nothing. -/
def textCall (s : PState) (text : String) (align : String) (font_size : Nat)
    (font : Option String) (line_spacing : Nat) : PState :=
  let font := font.getD s.default_font
  { s with contents := s.contents ++ [.text ⟨text, align, font_size, font, line_spacing⟩] }

/-- `EscPosPrinter.newline` (defaults `height=28`, `lines=1`). -/
def newlineCall (s : PState) (height lines : Nat) : PState :=
  { s with contents := s.contents ++ [.newline ⟨height, lines⟩] }

/-- `EscPosPrinter.qrcode`: `sm ↦ (8,2)`, `md ↦ (10,2)`, `lg ↦ (16,2)`, any
other size raises `ValueError` before anything is appended. -/
def qrcodeCall (s : PState) (data : String) (size : String) : Except String PState := do
  let params : Nat × Nat ←
    if size = "sm" then pure (8, 2)
    else if size = "md" then pure (10, 2)
    else if size = "lg" then pure (16, 2)
    else Except.error "Invalid size. Choose sm, md, or lg."
  .ok { s with contents := s.contents ++ [.qr ⟨data, params.1, params.2⟩] }

/-- `EscPosPrinter.image` for an already-decoded canvas;
`max_width = "full"` resolves to the paper width before this point. -/
def imageCall (s : PState) (image : GrayImg) (max_width : Option Nat) : PState :=
  { s with contents := s.contents ++ [.image ⟨image, max_width⟩] }

/-- `EscPosPrinter.flex` (defaults: gaps 0, `horizontal_align="left"`,
`vertical_align="top"`): appends a `Flex` node whose `max_width` is the paper
width. -/
def flexCall (s : PState) (items : List FItem) (item_gap row_gap : Nat)
    (h_align v_align : String) : PState :=
  { s with contents :=
      s.contents ++ [.flex (.mk items item_gap row_gap h_align v_align (some s.paper_width))] }

/-- `ESC @` — `EscPosPrinter._escpos_init`. -/
def escpos_init : List Nat := [0x1b, 0x40]

/-- `ESC d n` — `EscPosPrinter._escpos_feed` (`bytes([lines])` rejects
values ≥ 256; the call sites use 4). -/
def escpos_feed (lines : Nat) : List Nat := [0x1b, 0x64, lines % 256]

/-- `GS V 0` — `EscPosPrinter._escpos_cut`. -/
def escpos_cut : List Nat := [0x1d, 0x56, 0x00]

/-- `EscPosPrinter.print`: render the contents to one canvas, then append
init, feed(4), the raster command, feed(4) and cut to the command buffer
(the transport send is external and does not touch the model state).
Returns the new state together with the chunk of bytes this call appended. -/
def printOnce (ops : Ops) (s : PState) : Except String (PState × List Nat) := do
  let r ← convertContents ops s.paper_width s.padding_x s.contents
  let chunk := escpos_init ++ escpos_feed 4 ++ image_to_escpos ops.resizeBin r.2
      ++ escpos_feed 4 ++ escpos_cut
  .ok ({ s with contents := r.1, commands := s.commands ++ chunk }, chunk)

/-- `EscPosPrinter.clear`: empty both the content list and the command
buffer. -/
def clearCall (s : PState) : PState :=
  { s with contents := [], commands := [] }

/-- Whether a flex item is a nested `Flex` group. -/
def FItem.isFlexItem : FItem → Bool
  | .flex _ => true
  | _ => false

/-- A concrete instance of the external collaborators, for witnesses and
counterexamples: character cells 10 px wide and lines 10 px tall, glyph
painting that leaves the canvas unchanged, a 400 × 400 all-black QR symbol
(the natural size of a version-1 symbol at `box_size = 16`, `border = 2`:
`(21 + 4) * 16 = 400`), and resamplers that only reindex the pixel grid. -/
def ops0 : Ops where
  bbox := fun _ _ s => ⟨0, 0, 10 * (s.length : Int), 10⟩
  drawText := fun base _ _ _ _ _ => base
  qrImg := fun _ _ _ => GrayImg.new 400 400 0
  resizePix := fun img _ _ => img.pixel
  resizeBin := fun img _ _ => img.black

/-- A concrete session state (58 mm paper, default padding). -/
def pstate0 : PState := ⟨"p", 384, "font", 10, "linux", none, [], []⟩

/-- A concrete session state for evaluating a full print: 8-dot paper, no
padding, one 1 × 1 blank-line content. -/
def pstateNL : PState := ⟨"p", 8, "font", 0, "linux", none, [.newline ⟨1, 1⟩], []⟩

/-- The byte chunk one `print` call appends for `pstateNL` under `ops0`. -/
def chunkNL : List Nat :=
  [0x1b, 0x40, 0x1b, 0x64, 4, 0x1d, 0x76, 0x30, 0x00, 1, 0, 1, 0, 0, 0x1b, 0x64, 4,
   0x1d, 0x56, 0x00]

/-- The state `pstateNL` reaches after one `print` call under `ops0`. -/
def pstateNL1 : PState :=
  { pstateNL with contents := [.newline ⟨1, 1⟩], commands := chunkNL }

/-- The content-node transformation `_convert_contents` actually applies (the
in-place clamp of a truthy `ImageContent.max_width` against
`paper_width - 2*padding_x`); every other node is left untouched. -/
def clampContent (paper_width padding_x : Nat) : ContentN → ContentN
  | .image i =>
    if truthy i.max_width then
      let availI : Int := (paper_width : Int) - 2 * (padding_x : Int)
      let mw0 := i.max_width.getD 0
      .image { i with max_width := some (if (mw0 : Int) > availI then availI.toNat else mw0) }
    else .image i
  | .text t => .text t
  | .qr q => .qr q
  | .newline n => .newline n
  | .flex f => .flex f

/-- The block sequence the compositor emits for one `Text` node, as the
amended claim words it: the first line plain, every later line preceded by a
blank spacer of height `line_spacing` when `line_spacing > 0`, and nothing
after the last line. -/
def textBlocksSpec (paper_width ls : Nat) (lines : List GrayImg) : List RenderedBlock :=
  match lines with
  | [] => []
  | b :: rest =>
    ⟨b, 0⟩ :: rest.flatMap fun x =>
      if ls > 0 then [⟨escposRenderNewline paper_width ⟨ls, 1⟩, 0⟩, ⟨x, 0⟩] else [⟨x, 0⟩]

/-- A single `between`-aligned row as the placement loop leaves it: each item
at its original x, all sharing the row's y.  (`(Int × GrayImg)` pairs are the
`(original_x, rendered_item)` data of one row.) -/
def placedRowOf (y0 : Int) (items : List (Int × GrayImg)) :
    List ((Int × Int) × GrayImg) :=
  items.map fun q => ((q.1, y0), q.2)

/-- `total_row_width`: the sum of the row's item widths, accumulated exactly
as the source's `sum(item.size[0] for _, item in items_in_row)`. -/
def rowWidthSum (items : List (Int × GrayImg)) : Int :=
  items.foldl (fun a q => a + (q.2.width : Int)) 0

/-- The `between` pass's extra gap:
`(max_width - total_row_width) // total_gaps` when the row has at least one
gap, 0 for a single-item row. -/
def betweenExtraGap (W : Nat) (items : List (Int × GrayImg)) : Int :=
  if ((items.length : Int) - 1) > 0 then
    ((W : Int) - rowWidthSum items).fdiv ((items.length : Int) - 1)
  else 0

/-- The layout the claim describes (spec side): the row re-laid from x = 0
with item k at `Σ_{i<k} w_i + k * e` — every consecutive pair of items
separated by the same extra gap `e`. -/
def betweenRowSpec (y0 e : Int) : Int → List (Int × GrayImg) → List ((Int × Int) × GrayImg)
  | _, [] => []
  | cx, q :: rest => ((cx, y0), q.2) :: betweenRowSpec y0 e (cx + (q.2.width : Int) + e) rest

/-- The proviso under which the pass's first-match positional lookup resolves
every item of the row: no position already assigned may equal a later item's
still-pending original x.  The C8 counterexample shows the pass misfires
without it, so the equal-gap redistribution only holds under this
condition. -/
def noCollB (e : Int) : Int → List (Int × GrayImg) → Bool
  | _, [] => true
  | cx, q :: rest =>
    rest.all (fun r => decide (cx ≠ r.1)) && noCollB e (cx + (q.2.width : Int) + e) rest

@[simp] lemma binarize_width (img : GrayImg) : (binarize img).width = img.width := rfl

@[simp] lemma binarize_height (img : GrayImg) : (binarize img).height = img.height := rfl

lemma intensity_lt_iff (c : BinImg) (x y : Nat) :
    c.intensity x y < 200 ↔ c.black x y = true := by
  unfold BinImg.intensity
  cases h : c.black x y <;> simp [h]

lemma packByte_eq_sum (black : Nat → Nat → Bool) (y xb : Nat) :
    packByte black y xb =
      ∑ b ∈ Finset.range 8, if black (xb * 8 + b) y then 2 ^ (7 - b) else 0 := by
  have h8 : List.range 8 = [0, 1, 2, 3, 4, 5, 6, 7] := by decide
  unfold packByte
  rw [h8]
  simp only [List.foldl_cons, List.foldl_nil, Finset.sum_range_succ, Finset.sum_range_zero]
  generalize black (xb * 8 + 0) y = b0
  generalize black (xb * 8 + 1) y = b1
  generalize black (xb * 8 + 2) y = b2
  generalize black (xb * 8 + 3) y = b3
  generalize black (xb * 8 + 4) y = b4
  generalize black (xb * 8 + 5) y = b5
  generalize black (xb * 8 + 6) y = b6
  generalize black (xb * 8 + 7) y = b7
  revert b0 b1 b2 b3 b4 b5 b6 b7
  decide

lemma packBits_eq_spec (c : BinImg) (width height : Nat) :
    packBits c.black width height = rasterDataSpec c (width / 8) height := by
  unfold packBits rasterDataSpec
  refine List.flatMap_congr ?_
  intro y _
  refine List.map_congr_left ?_
  intro xb _
  rw [packByte_eq_sum]
  refine Finset.sum_congr rfl ?_
  intro b _
  simp only [intensity_lt_iff]

lemma length_flatMap_const {α β : Type} (l : List α) (f : α → List β) (n : Nat)
    (h : ∀ a, (f a).length = n) : (l.flatMap f).length = l.length * n := by
  induction l with
  | nil => simp
  | cons a t ih => simp [ih, h a, Nat.succ_mul, Nat.add_comm]

lemma rasterDataSpec_length (c : BinImg) (rowBytes height : Nat) :
    (rasterDataSpec c rowBytes height).length = rowBytes * height := by
  unfold rasterDataSpec
  rw [length_flatMap_const _ _ rowBytes (fun y => by simp)]
  simp [Nat.mul_comm]

/-- C1.  The raster encoder's output is exactly: the fixed opcode
`1D 76 30 00`, then `rowBytes = paddedWidth/8` little-endian on 2 bytes, then
the height little-endian on 2 bytes, then `rowBytes * height` data bytes,
each packing 8 horizontally consecutive pixels of one row left-to-right
MSB-first (leftmost pixel in bit 7), a bit being 1 exactly when that pixel of
the (binarized, possibly padded) canvas has intensity below 200. -/
theorem c1_raster_encoding (resize : BinResize) (img : GrayImg) :
    image_to_escpos resize img =
        [0x1d, 0x76, 0x30, 0x00]
          ++ [paddedWidth img.width / 8 % 256, paddedWidth img.width / 8 / 256 % 256]
          ++ [img.height % 256, img.height / 256 % 256]
          ++ rasterDataSpec (paddedCanvas resize img) (paddedWidth img.width / 8) img.height
      ∧ (rasterDataSpec (paddedCanvas resize img) (paddedWidth img.width / 8)
          img.height).length = (paddedWidth img.width / 8) * img.height := by
  constructor
  · by_cases h : img.width % 8 = 0
    · have hp : paddedWidth img.width = img.width := if_pos h
      have hc : paddedCanvas resize img = binarize img := if_pos h
      rw [hp, hc, ← packBits_eq_spec (binarize img) img.width img.height]
      simp only [image_to_escpos, binarize_width, binarize_height, toBytesLE2, ne_eq, h,
        not_true_eq_false, if_false, ite_false]
    · have hp : paddedWidth img.width = (img.width + 7) / 8 * 8 := if_neg h
      have hc : paddedCanvas resize img =
          ⟨paddedWidth img.width, img.height,
            resize (binarize img) (paddedWidth img.width) img.height⟩ := if_neg h
      rw [hc, hp, ← packBits_eq_spec]
      simp only [image_to_escpos, binarize_width, binarize_height, toBytesLE2, ne_eq, h,
        not_false_iff, if_true, ite_true]
  · exact rasterDataSpec_length _ _ _

/-- C2.  When the canvas width is not a multiple of 8 the encoder stretches
the (binarized) canvas to `ceil(width/8)*8` columns by resizing — the data
bytes are packed from the resized pixel grid, not from a zero-padded copy of
the original — and the `rowBytes` field is the padded width divided by 8.
For a canvas of width 385 the padded width is 392 and `rowBytes` is 49. -/
theorem c2_width_padding (resize : BinResize) (img : GrayImg)
    (h : img.width % 8 ≠ 0) :
    (image_to_escpos resize img =
        [0x1d, 0x76, 0x30, 0x00]
          ++ toBytesLE2 ((img.width + 7) / 8 * 8 / 8) ++ toBytesLE2 img.height
          ++ packBits (resize (binarize img) ((img.width + 7) / 8 * 8) img.height)
              ((img.width + 7) / 8 * 8) img.height)
      ∧ paddedWidth img.width = (img.width + 7) / 8 * 8
      ∧ (img.width = 385 →
          paddedWidth img.width = 392 ∧ toBytesLE2 (paddedWidth img.width / 8) = [49, 0]) := by
  refine ⟨?_, if_neg h, ?_⟩
  · simp only [image_to_escpos, binarize_width, binarize_height, ne_eq, h, not_false_iff,
      if_true, ite_true]
  · intro h385
    rw [h385]
    exact ⟨by decide, by decide⟩

theorem c2_width_padding_witness :
    imgW385.width % 8 ≠ 0 ∧
      (paddedWidth imgW385.width = 392 ∧ toBytesLE2 (paddedWidth imgW385.width / 8) = [49, 0]) :=
  ⟨by decide, (c2_width_padding resize0 imgW385 (by decide)).2.2 rfl⟩

lemma wrapStep_inv {measure : List Char → Int} {avail : Int} {p : List Char}
    {st : List (List Char) × List Char} (h : WrapInv measure avail p st) (c : Char) :
    WrapInv measure avail (p ++ [c]) (wrapStep measure avail st c) := by
  obtain ⟨hj, hc, hl, hf, hfc⟩ := h
  unfold wrapStep
  by_cases hov : measure (st.2 ++ [c]) > avail
  · rw [if_pos hov]
    refine ⟨?_, ?_, ?_, ?_, ?_⟩
    · simp only [List.flatten_append, List.flatten_cons, List.flatten_nil, List.append_nil]
      rw [← hj, List.append_assoc]
    · rw [List.chain'_append]
      refine ⟨hc, List.chain'_singleton _, ?_⟩
      intro x hx y hy
      simp only [List.head?_cons, Option.mem_def, Option.some.injEq] at hy
      subst hy
      exact hl x hx
    · intro x hx
      rw [List.getLast?_concat] at hx
      simp only [Option.mem_def, Option.some.injEq] at hx
      subst hx
      exact ⟨by simp, by simpa using hov⟩
    · intro l hlmem
      rcases List.mem_append.1 hlmem with h1 | h2
      · exact hf l h1
      · simp only [List.mem_singleton] at h2
        subst h2
        exact hfc
    · intro n h2 hle
      simp only [List.length_singleton] at hle
      omega
  · rw [if_neg hov]
    refine ⟨?_, hc, ?_, hf, ?_⟩
    · rw [← hj, List.append_assoc]
    · intro x hx
      obtain ⟨hne, hb⟩ := hl x hx
      cases hst2 : st.2 with
      | nil => exact absurd hst2 hne
      | cons hd tl =>
        refine ⟨by simp, ?_⟩
        rw [hst2] at hb
        simpa using hb
    · intro n h2 hle
      rcases Nat.lt_or_ge n (st.2.length + 1) with hlt | hge
      · have hn : n ≤ st.2.length := by omega
        rw [List.take_append_of_le_length hn]
        exact hfc n h2 hn
      · have hlen : (st.2 ++ [c]).length ≤ n := by
          simp only [List.length_append, List.length_singleton]
          omega
        rw [List.take_of_length_le hlen]
        exact le_of_not_lt hov

lemma wrapFold_inv (measure : List Char → Int) (avail : Int) :
    ∀ (t p : List Char) (st : List (List Char) × List Char),
      WrapInv measure avail p st →
      WrapInv measure avail (p ++ t) (t.foldl (wrapStep measure avail) st)
  | [], p, st, h => by simpa using h
  | c :: t, p, st, h => by
      rw [List.foldl_cons, show p ++ c :: t = (p ++ [c]) ++ t from by simp]
      exact wrapFold_inv measure avail t (p ++ [c]) _ (wrapStep_inv h c)

lemma wrapInv_init (measure : List Char → Int) (avail : Int) :
    WrapInv measure avail [] ([], []) := by
  refine ⟨rfl, by simp, by simp, by simp, ?_⟩
  intro n h2 hle
  simp only [List.length_nil, Nat.le_zero] at hle
  omega

/-- C7.  The line wrap of `_render_text` is the greedy single-character
accumulation the spec describes: (1) the produced lines concatenate back to
the input text (each character lands in a line, and the overflowing character
becomes the first character of the next line); (2) adjacent lines satisfy the
boundary relation — each closed line extended by the first character of the
following line exceeds the available width, even when the closed line is
empty (a single over-wide first character still starts a new line); (3) for
nonempty text the final accumulator is flushed as a last, nonempty line; and
(4) lines only grow through candidates that fitted (every prefix of length at
least 2 of any line measures within the available width). -/
theorem c7_greedy_wrap (measure : List Char → Int) (avail : Int) (t : List Char) :
    (wrapLines measure avail t).flatten = t
      ∧ List.Chain' (BoundaryR measure avail) (wrapLines measure avail t)
      ∧ (t ≠ [] → wrapLines measure avail t ≠ [] ∧
          ∀ l ∈ (wrapLines measure avail t).getLast?, l ≠ [])
      ∧ (∀ l ∈ wrapLines measure avail t, PrefixFit measure avail l) := by
  have hinv := wrapFold_inv measure avail t [] ([], []) (wrapInv_init measure avail)
  rw [List.nil_append] at hinv
  obtain ⟨hj, hc, hl, hf, hfc⟩ := hinv
  unfold wrapLines
  by_cases hcur : (t.foldl (wrapStep measure avail) ([], [])).2 ≠ []
  · rw [if_pos hcur]
    refine ⟨?_, ?_, ?_, ?_⟩
    · simpa using hj
    · rw [List.chain'_append]
      refine ⟨hc, List.chain'_singleton _, ?_⟩
      intro x hx y hy
      simp only [List.head?_cons, Option.mem_def, Option.some.injEq] at hy
      subst hy
      exact ⟨hcur, (hl x hx).2⟩
    · intro _
      refine ⟨by simp, ?_⟩
      intro l hlast
      rw [List.getLast?_concat] at hlast
      simp only [Option.mem_def, Option.some.injEq] at hlast
      subst hlast
      exact hcur
    · intro l hm
      rcases List.mem_append.1 hm with h1 | h2
      · exact hf l h1
      · simp only [List.mem_singleton] at h2
        subst h2
        exact hfc
  · rw [if_neg hcur]
    have h2 : (t.foldl (wrapStep measure avail) ([], [])).2 = [] := not_not.1 hcur
    have h1 : (t.foldl (wrapStep measure avail) ([], [])).1 = [] := by
      cases hst1 : (t.foldl (wrapStep measure avail) ([], [])).1 with
      | nil => rfl
      | cons a l =>
        exfalso
        have hx : a :: l ≠ [] := by simp
        have hmem : (a :: l).getLast hx ∈ ((a :: l) : List (List Char)).getLast? := by
          rw [List.getLast?_eq_getLast _ hx]
          rfl
        rw [hst1] at hl
        exact absurd h2 ((hl _ hmem).1)
    have ht : t = [] := by rw [← hj, h1, h2]; rfl
    refine ⟨?_, ?_, ?_, ?_⟩
    · rw [h1, ht]; rfl
    · rw [h1]; simp
    · intro hne; exact absurd ht hne
    · rw [h1]; simp

theorem c7_greedy_wrap_witness :
    wrapLines (fun cs => 10 * (cs.length : Int)) 25 "abcd".toList = [['a', 'b'], ['c', 'd']]
      ∧ (wrapLines (fun cs => 10 * (cs.length : Int)) 25 "abcd".toList).flatten = "abcd".toList :=
  ⟨by decide, (c7_greedy_wrap (fun cs => 10 * (cs.length : Int)) 25 "abcd".toList).1⟩

/-! ### C10: unconstrained flex and nested groups -/

@[simp] lemma ep_bind_ok {ε α β : Type} (a : α) (f : α → Except ε β) :
    (Except.ok a >>= f) = f a := rfl

@[simp] lemma ep_bind_error {ε α β : Type} (e : ε) (f : α → Except ε β) :
    (Except.error e >>= f : Except ε β) = Except.error e := rfl

lemma renderItem_flex_none_error (ops : Ops) (item_gap row_gap : Nat) (f : FlexN)
    (s : LoopState) :
    ∃ e, renderItem ops none item_gap row_gap (.flex f) s = .error e := by
  rw [renderItem]
  cases h : flexLayout ops f f.max_width with
  | error e => exact ⟨e, by simp [h]⟩
  | ok lay =>
    exact ⟨"TypeError: not supported between instances of int and NoneType", by simp [h]⟩

lemma renderItem_ok_of_not_flex (ops : Ops) (self_max : Option Nat)
    (item_gap row_gap : Nat) (item : FItem) (s : LoopState)
    (h : item.isFlexItem = false) :
    ∃ s2, renderItem ops self_max item_gap row_gap item s = .ok s2 := by
  cases item with
  | text t => exact ⟨_, by rw [renderItem]⟩
  | qr q => exact ⟨_, by rw [renderItem]⟩
  | image i => exact ⟨_, by rw [renderItem]⟩
  | flex f => simp [FItem.isFlexItem] at h

lemma renderItems_error_of_mem_flex (ops : Ops) (item_gap row_gap : Nat) :
    ∀ (l : List FItem) (s : LoopState),
      (∃ item ∈ l, item.isFlexItem = true) →
      ∃ e, renderItems ops none item_gap row_gap l s = .error e := by
  intro l
  induction l with
  | nil => intro s h; simp at h
  | cons item rest ih =>
    intro s h
    rw [renderItems]
    by_cases hitem : item.isFlexItem = true
    · cases item with
      | flex f =>
        obtain ⟨e, he⟩ := renderItem_flex_none_error ops item_gap row_gap f s
        exact ⟨e, by simp [he]⟩
      | text t => simp [FItem.isFlexItem] at hitem
      | qr q => simp [FItem.isFlexItem] at hitem
      | image i => simp [FItem.isFlexItem] at hitem
    · have hrest : ∃ it ∈ rest, it.isFlexItem = true := by
        obtain ⟨it, hmem, hit⟩ := h
        rcases List.mem_cons.1 hmem with rfl | hmemr
        · exact absurd hit hitem
        · exact ⟨it, hmemr, hit⟩
      obtain ⟨s2, hok⟩ := renderItem_ok_of_not_flex ops none item_gap row_gap item s
        (Bool.not_eq_true _ ▸ hitem)
      obtain ⟨e, he⟩ := ih s2 hrest
      exact ⟨e, by simp [hok, he]⟩

lemma renderItems_ok_of_no_flex (ops : Ops) (self_max : Option Nat)
    (item_gap row_gap : Nat) :
    ∀ (l : List FItem) (s : LoopState),
      (∀ item ∈ l, item.isFlexItem = false) →
      ∃ s2, renderItems ops self_max item_gap row_gap l s = .ok s2 := by
  intro l
  induction l with
  | nil => intro s _; exact ⟨s, by rw [renderItems]⟩
  | cons item rest ih =>
    intro s h
    obtain ⟨s2, hok⟩ := renderItem_ok_of_not_flex ops self_max item_gap row_gap item s
      (h item (List.mem_cons_self _ _))
    obtain ⟨s3, hok3⟩ := ih s2 (fun it hmem => h it (List.mem_cons_of_mem _ hmem))
    exact ⟨s3, by rw [renderItems]; simp [hok, hok3]⟩

/-- C10.  For a `FlexRenderer` whose `max_width` is `None`: the row-wrap
check of the `Text`/`QrCode`/`Image` branches is guarded on `max_width` being
truthy and is skipped (placement always succeeds — rendering succeeds
outright for groups of such items under a `left`/default alignment); but the
nested-`Flex` branch runs the unguarded comparison
`current_x + item_width > self.max_width` and raises, so rendering any
unconstrained flex that contains a nested `Flex` group fails. -/
theorem c10_unconstrained_nested_flex (ops : Ops) (f : FlexN) :
    (∀ cx w, wrapNeeded none cx w = false)
      ∧ ((∃ item ∈ f.items, item.isFlexItem = true) →
          ∃ e, flexRenderFull ops f none = .error e)
      ∧ ((∀ item ∈ f.items, item.isFlexItem = false) →
          f.h_align ≠ "right" → f.h_align ≠ "between" →
          ∃ img, flexRenderFull ops f none = .ok img) := by
  refine ⟨fun cx w => rfl, ?_, ?_⟩
  · intro hmem
    cases f with
    | mk items item_gap row_gap h_align v_align max_width =>
      obtain ⟨e, he⟩ :=
        renderItems_error_of_mem_flex ops item_gap row_gap items ⟨[], 0, 0, 0, 0⟩
          (by simpa [FlexN.items] using hmem)
      refine ⟨e, ?_⟩
      rw [flexRenderFull, flexLayout]
      simp [he]
  · intro hnone hr hb
    cases f with
    | mk items item_gap row_gap h_align v_align max_width =>
      obtain ⟨s2, hok⟩ :=
        renderItems_ok_of_no_flex ops none item_gap row_gap items ⟨[], 0, 0, 0, 0⟩
          (by simpa [FlexN.items] using hnone)
      rw [flexRenderFull, flexLayout]
      simp only [FlexN.h_align] at hr hb
      simp [hok, hAlignPass, hr, hb]

theorem c10_unconstrained_nested_flex_witness :
    (∃ e, flexRenderFull ops0
        (.mk [.flex (.mk [] 0 0 "left" "top" (some 10))] 0 0 "left" "top" none)
        none = .error e)
      ∧ (∃ img, flexRenderFull ops0
          (.mk [.qr ⟨"d", 16, 2⟩] 0 0 "left" "top" none) none = .ok img) := by
  constructor
  · exact (c10_unconstrained_nested_flex ops0 _).2.1
      ⟨.flex (.mk [] 0 0 "left" "top" (some 10)), by simp [FlexN.items], rfl⟩
  · exact (c10_unconstrained_nested_flex ops0 _).2.2
      (by intro item hmem; simp [FlexN.items] at hmem; subst hmem; rfl)
      (by simp [FlexN.h_align]) (by simp [FlexN.h_align])

/-! ### C6: width containment -/

@[simp] lemma paste_width (a b : GrayImg) (x y : Int) : (a.paste b x y).width = a.width := rfl

@[simp] lemma paste_height (a b : GrayImg) (x y : Int) : (a.paste b x y).height = a.height := rfl

@[simp] lemma new_width (w h c : Nat) : (GrayImg.new w h c).width = w := rfl

@[simp] lemma new_height (w h c : Nat) : (GrayImg.new w h c).height = h := rfl

@[simp] lemma centerCanvas_width (pw : Nat) (img : GrayImg) :
    (centerCanvas pw img).width = pw := rfl

lemma foldl_paste_width (l : List ((Int × Int) × GrayImg)) (base : GrayImg) :
    (l.foldl (fun img p => img.paste p.2 p.1.1 p.1.2) base).width = base.width := by
  induction l generalizing base with
  | nil => rfl
  | cons p rest ih => simp [List.foldl_cons, ih]

lemma assembleFlex_width_some (m : Nat) (r : FlexLayoutResult) :
    (assembleFlex (some m) r).width = m := by
  simp [assembleFlex, foldl_paste_width]

@[simp] lemma ep_pure_eq_ok {ε α : Type} (a : α) : (pure a : Except ε α) = .ok a := rfl

lemma mapM_ok_mem {ε α β : Type} (f : α → Except ε β) :
    ∀ (l : List α) (ys : List β), l.mapM f = .ok ys → ∀ y ∈ ys, ∃ x ∈ l, f x = .ok y := by
  intro l
  induction l with
  | nil =>
    intro ys h y hy
    simp only [List.mapM_nil, ep_pure_eq_ok, Except.ok.injEq] at h
    subst h
    simp at hy
  | cons a t ih =>
    intro ys h y hy
    rw [List.mapM_cons] at h
    cases hfa : f a with
    | error e => rw [hfa] at h; simp at h
    | ok b =>
      rw [hfa] at h
      cases hmt : t.mapM f with
      | error e => rw [hmt] at h; simp at h
      | ok bs =>
        rw [hmt] at h
        simp only [ep_bind_ok, ep_pure_eq_ok, Except.ok.injEq] at h
        subst h
        rcases List.mem_cons.1 hy with rfl | hmem
        · exact ⟨a, List.mem_cons_self _ _, hfa⟩
        · obtain ⟨x, hx, hfx⟩ := ih bs hmt y hmem
          exact ⟨x, List.mem_cons_of_mem _ hx, hfx⟩

lemma renderTextLine_width (ops : Ops) (pw px : Nat) (t : TextN) (cs : List Char)
    (img : GrayImg) (h : renderTextLine ops pw px t cs = .ok img) : img.width = pw := by
  unfold renderTextLine at h
  split_ifs at h <;>
    simp only [ep_bind_ok, ep_bind_error, ep_pure_eq_ok, Except.ok.injEq] at h <;>
    first
      | (subst h; rfl)
      | exact absurd h (by simp)

lemma escposRenderText_width (ops : Ops) (pw px : Nat) (t : TextN)
    (lines : List GrayImg) (h : escposRenderText ops pw px t = .ok lines) :
    ∀ img ∈ lines, img.width = pw := by
  intro img hmem
  unfold escposRenderText at h
  obtain ⟨cs, _, hline⟩ := mapM_ok_mem _ _ _ h img hmem
  exact renderTextLine_width ops pw px t cs img hline

lemma escposRenderImage_width (ops : Ops) (pw px : Nat) (i : ImageN) :
    (escposRenderImage ops pw px i).2.width = pw := by
  unfold escposRenderImage
  split_ifs <;> rfl

lemma escposRenderQr_width (ops : Ops) (pw px : Nat) (q : QrCodeN) :
    (escposRenderQr ops pw px q).width = pw := rfl

lemma flexRenderFull_width_some (ops : Ops) (f : FlexN) (m : Nat) (img : GrayImg)
    (h : flexRenderFull ops f (some m) = .ok img) : img.width = m := by
  rw [flexRenderFull] at h
  cases hl : flexLayout ops f (some m) with
  | error e => rw [hl] at h; simp at h
  | ok lay =>
    rw [hl] at h
    simp only [ep_bind_ok, ep_pure_eq_ok, Except.ok.injEq] at h
    subst h
    exact assembleFlex_width_some m lay

/-- C6 (amended).  At the top level every rendered block canvas is no wider
than the paper width (text lines, QR codes, spacers and images are produced
paper-wide, a flex block at width `paper_width - 2*padding_x`), and a flex
canvas rendered against a set `max_width` has exactly that width.  Inside a
`Flex` group, however, `QrCode` (and width-unconstrained `Image`) sub-canvases
are rendered at natural size and may exceed the container's available width —
overflow is only clipped when pasting onto the flex canvas (see the
counterexample). -/
theorem c6_width_containment (ops : Ops) :
    (∀ pw px c c2 blocks, convertOne ops pw px c = .ok (c2, blocks) →
        ∀ b ∈ blocks, b.image.width ≤ pw)
      ∧ (∀ f m img, flexRenderFull ops f (some m) = .ok img → img.width = m) := by
  constructor
  · intro pw px c c2 blocks h b hb
    cases c with
    | text t =>
      rw [convertOne] at h
      cases hrt : escposRenderText ops pw px t with
      | error e => rw [hrt] at h; simp at h
      | ok lines =>
        rw [hrt] at h
        simp only [ep_bind_ok, ep_pure_eq_ok, Except.ok.injEq, Prod.mk.injEq] at h
        obtain ⟨-, hblocks⟩ := h
        subst hblocks
        rw [List.mem_flatMap] at hb
        obtain ⟨ib, hibmem, hbin⟩ := hb
        have hline : ib.2 ∈ lines := by
          have hg := List.mem_enum_iff_getElem?.1 hibmem
          exact List.mem_iff_getElem?.2 ⟨ib.1, hg⟩
        have hw := escposRenderText_width ops pw px t lines hrt ib.2 hline
        by_cases hcond : lines.length > 1 ∧ ib.1 > 0 ∧ t.line_spacing > 0
        · rw [if_pos hcond] at hbin
          rcases List.mem_cons.1 hbin with rfl | hbin2
          · simp [escposRenderNewline]
          · rcases List.mem_singleton.1 hbin2 with rfl
            simp [hw]
        · rw [if_neg hcond] at hbin
          rcases List.mem_singleton.1 hbin with rfl
          simp [hw]
    | qr q =>
      rw [convertOne] at h
      simp only [Except.ok.injEq, Prod.mk.injEq] at h
      obtain ⟨-, hblocks⟩ := h
      subst hblocks
      rcases List.mem_singleton.1 hb with rfl
      simp [escposRenderQr_width]
    | newline n =>
      rw [convertOne] at h
      simp only [Except.ok.injEq, Prod.mk.injEq] at h
      obtain ⟨-, hblocks⟩ := h
      subst hblocks
      rcases List.mem_singleton.1 hb with rfl
      simp [escposRenderNewline]
    | image i =>
      rw [convertOne] at h
      simp only [Except.ok.injEq, Prod.mk.injEq] at h
      obtain ⟨-, hblocks⟩ := h
      subst hblocks
      rcases List.mem_singleton.1 hb with rfl
      simp [escposRenderImage_width]
    | flex f =>
      rw [convertOne] at h
      cases hf : flexRenderFull ops f (some (pw - 2 * px)) with
      | error e => rw [hf] at h; simp at h
      | ok block =>
        rw [hf] at h
        simp only [ep_bind_ok, ep_pure_eq_ok, Except.ok.injEq, Prod.mk.injEq] at h
        obtain ⟨-, hblocks⟩ := h
        subst hblocks
        rcases List.mem_singleton.1 hb with rfl
        have := flexRenderFull_width_some ops f (pw - 2 * px) block hf
        simp only [this]
        exact Nat.sub_le pw (2 * px)
  · exact fun f m img h => flexRenderFull_width_some ops f m img h

theorem c6_width_containment_witness :
    convertOne ops0 384 10 (.newline ⟨1, 1⟩)
        = .ok (.newline ⟨1, 1⟩, [⟨GrayImg.new 384 1 255, 0⟩])
      ∧ ∀ b ∈ [(⟨GrayImg.new 384 1 255, 0⟩ : RenderedBlock)], b.image.width ≤ 384 :=
  ⟨rfl, (c6_width_containment ops0).1 384 10 (.newline ⟨1, 1⟩) (.newline ⟨1, 1⟩)
      [⟨GrayImg.new 384 1 255, 0⟩] rfl⟩

/-- C6, counterexample to the claim as stated: a default `lg` QR code
(natural size 400 × 400) inside a flex group whose available width is 364
(58 mm paper minus twice the default padding) is rendered as a 400-wide
sub-canvas — wider than the enclosing container's available width, neither
clipped nor rescaled at render time; it is placed alone on its row, and the
overflow is discarded only because the final flex canvas is 364 wide. -/
theorem c6_counterexample :
    flexLayout ops0 (.mk [.qr ⟨"d", 16, 2⟩] 0 0 "left" "top" none) (some 364)
        = .ok ⟨[((0, 0), GrayImg.new 400 400 0)], 400, 400⟩
      ∧ (364 : Nat) < 400
      ∧ (assembleFlex (some 364)
          ⟨[((0, 0), GrayImg.new 400 400 0)], 400, 400⟩).width = 364 := by
  refine ⟨?_, by decide, rfl⟩
  rw [flexLayout, renderItems, renderItem]
  simp only [flexRenderQr, ops0, placeGuarded, wrapNeeded, rowWrap, placeAfterCheck,
    hAlignPass, vAlignPass, renderItems, ep_bind_ok, ep_pure_eq_ok]
  norm_num
  simp

/-! ### C4: spacing around text blocks -/

lemma enumFrom_flatMap_cond (sp : RenderedBlock) (ls L : Nat) (hL : L > 1) :
    ∀ (rest : List GrayImg) (k : Nat), 1 ≤ k →
      (List.enumFrom k rest).flatMap (fun ib =>
          if L > 1 ∧ ib.1 > 0 ∧ ls > 0 then [sp, ⟨ib.2, 0⟩] else [⟨ib.2, 0⟩])
        = rest.flatMap (fun x => if ls > 0 then [sp, ⟨x, 0⟩] else [⟨x, 0⟩]) := by
  intro rest
  induction rest with
  | nil => intro k _; rfl
  | cons x r ih =>
    intro k hk
    rw [List.enumFrom_cons, List.flatMap_cons, List.flatMap_cons, ih (k + 1) (by omega)]
    by_cases hls : ls > 0
    · rw [if_pos ⟨hL, by omega, hls⟩, if_pos hls]
    · rw [if_neg (by omega), if_neg hls]

lemma textBlocks_eq_spec (pw ls : Nat) (lines : List GrayImg) :
    lines.enum.flatMap (fun ib =>
        if lines.length > 1 ∧ ib.1 > 0 ∧ ls > 0 then
          [⟨escposRenderNewline pw ⟨ls, 1⟩, 0⟩, ⟨ib.2, 0⟩]
        else [⟨ib.2, 0⟩])
      = textBlocksSpec pw ls lines := by
  cases lines with
  | nil => rfl
  | cons b rest =>
    rw [textBlocksSpec]
    rw [show (b :: rest).enum = (0, b) :: List.enumFrom 1 rest from rfl, List.flatMap_cons]
    have h0 : ¬((b :: rest).length > 1 ∧ (0 : Nat) > 0 ∧ ls > 0) := by omega
    rw [if_neg h0]
    cases rest with
    | nil => rfl
    | cons x r =>
      rw [enumFrom_flatMap_cond _ ls (b :: x :: r).length (by simp) (x :: r) 1 (by omega)]
      rfl

/-- C4 (amended).  The compositor inserts no implicit spacer after a `Text`
block; instead, when the text wraps to more than one line and
`line_spacing > 0`, it inserts a blank spacer of height `line_spacing` BEFORE
every line block except the first (i.e. between consecutive lines); a
single-line `Text` block, whatever its font size, is followed by nothing. -/
theorem c4_text_spacing (ops : Ops) (pw px : Nat) (t : TextN) (lines : List GrayImg)
    (h : escposRenderText ops pw px t = .ok lines) :
    convertOne ops pw px (.text t) = .ok (.text t, textBlocksSpec pw t.line_spacing lines) := by
  rw [convertOne, h]
  simp only [ep_bind_ok, ep_pure_eq_ok, Except.ok.injEq, Prod.mk.injEq, true_and]
  exact textBlocks_eq_spec pw t.line_spacing lines

theorem c4_text_spacing_witness :
    convertOne ops0 25 0 (.text ⟨"abcd", "left", 28, "f", 4⟩)
        = .ok (.text ⟨"abcd", "left", 28, "f", 4⟩,
            textBlocksSpec 25 4 [GrayImg.new 25 10 255, GrayImg.new 25 10 255])
      ∧ textBlocksSpec 25 4 [GrayImg.new 25 10 255, GrayImg.new 25 10 255]
        = [⟨GrayImg.new 25 10 255, 0⟩, ⟨GrayImg.new 25 4 255, 0⟩, ⟨GrayImg.new 25 10 255, 0⟩] :=
  ⟨c4_text_spacing ops0 25 0 ⟨"abcd", "left", 28, "f", 4⟩
      [GrayImg.new 25 10 255, GrayImg.new 25 10 255] rfl, rfl⟩

/-- C4, counterexample to the claim as stated: a single-line `Text` block
with font size 28 (and the default `line_spacing` 4) produces exactly one
10-px-high line block and nothing else — in particular no implicit spacer of
height `28 / 2 = 14` after it. -/
theorem c4_counterexample :
    convertOne ops0 384 10 (.text ⟨"a", "left", 28, "font", 4⟩)
        = .ok (.text ⟨"a", "left", 28, "font", 4⟩, [⟨GrayImg.new 384 10 255, 0⟩])
      ∧ (28 : Nat) / 2 = 14 ∧ (10 : Nat) ≠ 14 :=
  ⟨rfl, rfl, by decide⟩

/-! ### C5: mutation of content nodes during rendering -/

lemma convertOne_fst (ops : Ops) (pw px : Nat) (c c2 : ContentN)
    (blocks : List RenderedBlock) (h : convertOne ops pw px c = .ok (c2, blocks)) :
    c2 = clampContent pw px c := by
  cases c with
  | text t =>
    rw [convertOne] at h
    cases hrt : escposRenderText ops pw px t with
    | error e => rw [hrt] at h; simp at h
    | ok lines =>
      rw [hrt] at h
      simp only [ep_bind_ok, ep_pure_eq_ok, Except.ok.injEq, Prod.mk.injEq] at h
      exact h.1.symm
  | qr q =>
    rw [convertOne] at h
    simp only [Except.ok.injEq, Prod.mk.injEq] at h
    exact h.1.symm
  | newline n =>
    rw [convertOne] at h
    simp only [Except.ok.injEq, Prod.mk.injEq] at h
    exact h.1.symm
  | image i =>
    rw [convertOne] at h
    simp only [Except.ok.injEq, Prod.mk.injEq] at h
    rw [← h.1]
    show ContentN.image (escposRenderImage ops pw px i).1 = clampContent pw px (.image i)
    rw [escposRenderImage, clampContent]
    split_ifs <;> rfl
  | flex f =>
    rw [convertOne] at h
    cases hf : flexRenderFull ops f (some (pw - 2 * px)) with
    | error e => rw [hf] at h; simp at h
    | ok block =>
      rw [hf] at h
      simp only [ep_bind_ok, ep_pure_eq_ok, Except.ok.injEq, Prod.mk.injEq] at h
      exact h.1.symm

lemma mapM_convertOne_fst (ops : Ops) (pw px : Nat) :
    ∀ (cs : List ContentN) (results : List (ContentN × List RenderedBlock)),
      cs.mapM (convertOne ops pw px) = .ok results →
      results.map (·.1) = cs.map (clampContent pw px) := by
  intro cs
  induction cs with
  | nil =>
    intro results h
    simp only [List.mapM_nil, ep_pure_eq_ok, Except.ok.injEq] at h
    subst h
    rfl
  | cons c t ih =>
    intro results h
    rw [List.mapM_cons] at h
    cases hc : convertOne ops pw px c with
    | error e => rw [hc] at h; simp at h
    | ok r =>
      rw [hc] at h
      cases hmt : t.mapM (convertOne ops pw px) with
      | error e => rw [hmt] at h; simp at h
      | ok rs =>
        rw [hmt] at h
        simp only [ep_bind_ok, ep_pure_eq_ok, Except.ok.injEq] at h
        subst h
        rw [List.map_cons, List.map_cons, ih rs hmt,
          convertOne_fst ops pw px c r.1 r.2 (by rw [hc])]

/-- C5 (amended).  Rendering does mutate exactly one thing in the content
sequence: a truthy `ImageContent.max_width` is clamped in place against
`paper_width - 2*padding_x`.  After a `print`, the session's content
sequence is the pointwise `clampContent` image of the old one (same length
and order); `Text`, `QrCode`, `NewLine` and `Flex` nodes are bit-identical,
and even for images the pixel data is untouched — only `max_width` can
change.  The command buffer only grows by the appended chunk. -/
theorem c5_render_mutation (ops : Ops) (s s1 : PState) (chunk : List Nat)
    (h : printOnce ops s = .ok (s1, chunk)) :
    s1.contents = s.contents.map (clampContent s.paper_width s.padding_x)
      ∧ s1.commands = s.commands ++ chunk
      ∧ (∀ t, clampContent s.paper_width s.padding_x (.text t) = .text t)
      ∧ (∀ q, clampContent s.paper_width s.padding_x (.qr q) = .qr q)
      ∧ (∀ n, clampContent s.paper_width s.padding_x (.newline n) = .newline n)
      ∧ (∀ f, clampContent s.paper_width s.padding_x (.flex f) = .flex f)
      ∧ (∀ i, ∃ mw, clampContent s.paper_width s.padding_x (.image i)
          = .image ⟨i.image, mw⟩) := by
  rw [printOnce] at h
  cases hcc : convertContents ops s.paper_width s.padding_x s.contents with
  | error e => rw [hcc] at h; simp at h
  | ok r =>
    rw [hcc] at h
    simp only [ep_bind_ok, ep_pure_eq_ok, Except.ok.injEq, Prod.mk.injEq] at h
    obtain ⟨hs1, hchunk⟩ := h
    have hfst : r.1 = s.contents.map (clampContent s.paper_width s.padding_x) := by
      rw [convertContents] at hcc
      cases hm : s.contents.mapM (convertOne ops s.paper_width s.padding_x) with
      | error e => rw [hm] at hcc; simp at hcc
      | ok results =>
        rw [hm] at hcc
        simp only [ep_bind_ok, ep_pure_eq_ok, Except.ok.injEq] at hcc
        rw [← hcc]
        exact mapM_convertOne_fst ops s.paper_width s.padding_x s.contents results hm
    refine ⟨by rw [← hs1, hfst], by rw [← hs1, hchunk], fun t => rfl, fun q => rfl,
      fun n => rfl, fun f => rfl, ?_⟩
    intro i
    rw [clampContent]
    split_ifs with ht
    · exact ⟨_, rfl⟩
    · exact ⟨i.max_width, rfl⟩

theorem c5_render_mutation_witness :
    printOnce ops0 pstateNL
        = .ok ({ pstateNL with contents := [.newline ⟨1, 1⟩], commands := chunkNL }, chunkNL)
      ∧ ([ContentN.newline ⟨1, 1⟩] : List ContentN)
          = pstateNL.contents.map (clampContent pstateNL.paper_width pstateNL.padding_x) := by
  refine ⟨rfl, ?_⟩
  have h := c5_render_mutation ops0 pstateNL
    { pstateNL with contents := [.newline ⟨1, 1⟩], commands := chunkNL } chunkNL rfl
  exact h.1.symm ▸ rfl

/-- C5, counterexample to the claim as stated: rendering an `ImageContent`
node whose `max_width` (1000) exceeds `paper_width - 2*padding_x` (364)
mutates the node held in the sequence — after the render the sequence holds
the node with `max_width = 364`, not the original. -/
theorem c5_counterexample :
    (convertContents ops0 384 10
        [.image ⟨⟨5, 1, fun _ _ => 0⟩, some 1000⟩]).map (·.1)
      = .ok [.image ⟨⟨5, 1, fun _ _ => 0⟩, some 364⟩]
      ∧ (364 : Nat) ≠ 1000 :=
  ⟨rfl, by decide⟩

/-! ### C3: idempotence of rendering -/

lemma escposRenderImage_eq_truthy (ops : Ops) (pw px : Nat) (i : ImageN) (mw0 : Nat)
    (hmw : i.max_width = some mw0) (h0 : mw0 ≠ 0) :
    escposRenderImage ops pw px i =
      ({ i with max_width := some (if (mw0 : Int) > (pw : Int) - 2 * (px : Int) then
            ((pw : Int) - 2 * (px : Int)).toNat else mw0) },
        centerCanvas pw
          (if i.image.width > (if (mw0 : Int) > (pw : Int) - 2 * (px : Int) then
              ((pw : Int) - 2 * (px : Int)).toNat else mw0) then
            GrayImg.resizeWith ops i.image
              (if (mw0 : Int) > (pw : Int) - 2 * (px : Int) then
                ((pw : Int) - 2 * (px : Int)).toNat else mw0)
              (i.image.height * (if (mw0 : Int) > (pw : Int) - 2 * (px : Int) then
                ((pw : Int) - 2 * (px : Int)).toNat else mw0) / i.image.width)
          else i.image)) := by
  rw [escposRenderImage, if_pos (by simp [truthy, hmw, h0])]
  simp only [hmw, Option.getD_some]

lemma escposRenderImage_eq_falsy (ops : Ops) (pw px : Nat) (i : ImageN)
    (h : truthy i.max_width = false) :
    escposRenderImage ops pw px i =
      (i, centerCanvas pw
        (if (i.image.width : Int) > (pw : Int) - 2 * (px : Int) then
          GrayImg.resizeWith ops i.image ((pw : Int) - 2 * (px : Int)).toNat
            (i.image.height * ((pw : Int) - 2 * (px : Int)).toNat / i.image.width)
        else i.image)) := by
  rw [escposRenderImage, if_neg (by simp [h])]

lemma escposRenderImage_idem (ops : Ops) (pw px : Nat) (hpx : 2 * px ≤ pw) (i : ImageN) :
    escposRenderImage ops pw px (escposRenderImage ops pw px i).1
      = escposRenderImage ops pw px i := by
  have havail : (0 : Int) ≤ (pw : Int) - 2 * (px : Int) := by omega
  cases hmw : i.max_width with
  | none =>
    have hfalsy : truthy i.max_width = false := by simp [truthy, hmw]
    rw [escposRenderImage_eq_falsy ops pw px i hfalsy]
    exact escposRenderImage_eq_falsy ops pw px i hfalsy
  | some mw0 =>
    by_cases h0 : mw0 = 0
    · have hfalsy : truthy i.max_width = false := by simp [truthy, hmw, h0]
      rw [escposRenderImage_eq_falsy ops pw px i hfalsy]
      exact escposRenderImage_eq_falsy ops pw px i hfalsy
    · rw [escposRenderImage_eq_truthy ops pw px i mw0 hmw h0]
      by_cases hgt : (mw0 : Int) > (pw : Int) - 2 * (px : Int)
      · simp only [if_pos hgt]
        by_cases hz : ((pw : Int) - 2 * (px : Int)).toNat = 0
        · -- the clamp produced max_width = 0, which is falsy on the second pass
          have hfalsy :
              truthy (ImageN.max_width
                { i with max_width := some ((pw : Int) - 2 * (px : Int)).toNat }) = false := by
            simp [truthy, hz]
          rw [escposRenderImage_eq_falsy ops pw px _ hfalsy]
          have hav0 : (pw : Int) - 2 * (px : Int) = 0 := by omega
          simp only [hav0, Int.toNat_zero] at hz ⊢
          have hcond : ((i.image.width : Int) > (0 : Int)) ↔ i.image.width > 0 := by
            constructor <;> intro hh <;> exact_mod_cast hh
          by_cases hw : i.image.width > 0
          · rw [if_pos (hcond.2 hw), if_pos hw]
          · rw [if_neg (fun hh => hw (hcond.1 hh)), if_neg hw]
        · -- the clamp produced a nonzero max_width; re-clamping is a no-op
          rw [escposRenderImage_eq_truthy ops pw px _ (((pw : Int) - 2 * (px : Int)).toNat)
            rfl hz]
          have hre : (if ((((pw : Int) - 2 * (px : Int)).toNat : Nat) : Int) >
              (pw : Int) - 2 * (px : Int) then ((pw : Int) - 2 * (px : Int)).toNat
              else ((pw : Int) - 2 * (px : Int)).toNat) = ((pw : Int) - 2 * (px : Int)).toNat := by
            split_ifs <;> rfl
          rw [hre]
      · simp only [if_neg hgt]
        have hnode : ({ i with max_width := some mw0 } : ImageN) = i := by
          rw [← hmw]
        rw [hnode]
        rw [escposRenderImage_eq_truthy ops pw px i mw0 hmw h0]
        simp only [if_neg hgt]
        rw [hnode]

lemma convertOne_idem (ops : Ops) (pw px : Nat) (hpx : 2 * px ≤ pw)
    (c c2 : ContentN) (blocks : List RenderedBlock)
    (h : convertOne ops pw px c = .ok (c2, blocks)) :
    convertOne ops pw px c2 = .ok (c2, blocks) := by
  have hc2 := convertOne_fst ops pw px c c2 blocks h
  cases c with
  | text t => rw [clampContent] at hc2; subst hc2; exact h
  | qr q => rw [clampContent] at hc2; subst hc2; exact h
  | newline n => rw [clampContent] at hc2; subst hc2; exact h
  | flex f => rw [clampContent] at hc2; subst hc2; exact h
  | image i =>
    rw [convertOne] at h
    simp only [Except.ok.injEq, Prod.mk.injEq] at h
    obtain ⟨h1, h2⟩ := h
    subst h1
    subst h2
    rw [convertOne, escposRenderImage_idem ops pw px hpx i]

lemma mapM_convertOne_idem (ops : Ops) (pw px : Nat) (hpx : 2 * px ≤ pw) :
    ∀ (cs : List ContentN) (results : List (ContentN × List RenderedBlock)),
      cs.mapM (convertOne ops pw px) = .ok results →
      (results.map (·.1)).mapM (convertOne ops pw px) = .ok results := by
  intro cs
  induction cs with
  | nil =>
    intro results h
    simp only [List.mapM_nil, ep_pure_eq_ok, Except.ok.injEq] at h
    subst h
    rfl
  | cons c t ih =>
    intro results h
    rw [List.mapM_cons] at h
    cases hc : convertOne ops pw px c with
    | error e => rw [hc] at h; simp at h
    | ok r =>
      rw [hc] at h
      cases hmt : t.mapM (convertOne ops pw px) with
      | error e => rw [hmt] at h; simp at h
      | ok rs =>
        rw [hmt] at h
        simp only [ep_bind_ok, ep_pure_eq_ok, Except.ok.injEq] at h
        subst h
        rw [List.map_cons, List.mapM_cons,
          convertOne_idem ops pw px hpx c r.1 r.2 (by rw [hc]), ep_bind_ok,
          ih rs hmt, ep_bind_ok]
        rfl

lemma convertContents_idem (ops : Ops) (pw px : Nat) (hpx : 2 * px ≤ pw)
    (cs cs2 : List ContentN) (img : GrayImg)
    (h : convertContents ops pw px cs = .ok (cs2, img)) :
    convertContents ops pw px cs2 = .ok (cs2, img) := by
  rw [convertContents] at h ⊢
  cases hm : cs.mapM (convertOne ops pw px) with
  | error e => rw [hm] at h; simp at h
  | ok results =>
    rw [hm] at h
    simp only [ep_bind_ok, ep_pure_eq_ok, Except.ok.injEq, Prod.mk.injEq] at h
    obtain ⟨hcs2, himg⟩ := h
    rw [← hcs2, mapM_convertOne_idem ops pw px hpx cs results hm, ep_bind_ok, ← himg]

/-- C3.  Rendering the same content sequence twice yields byte-identical
output: if a `print` call on state `s` appends the chunk `chunk`, the next
`print` call (on the state the first one left behind, whose content sequence
was not otherwise mutated) appends exactly the same `chunk` — even though the
first render may have clamped an `ImageContent.max_width` in place, the clamp
is idempotent and the second render reproduces the same canvas.  (The sanity
hypothesis `2*padding_x ≤ paper_width` holds for every constructible
configuration; beyond it the source would crash in PIL rather than produce
different bytes.) -/
theorem c3_idempotent_print (ops : Ops) (s s1 : PState) (chunk : List Nat)
    (hpx : 2 * s.padding_x ≤ s.paper_width)
    (h : printOnce ops s = .ok (s1, chunk)) :
    printOnce ops s1 = .ok ({ s1 with commands := s1.commands ++ chunk }, chunk) := by
  rw [printOnce] at h
  cases hcc : convertContents ops s.paper_width s.padding_x s.contents with
  | error e => rw [hcc] at h; simp at h
  | ok r =>
    rw [hcc] at h
    simp only [ep_bind_ok, ep_pure_eq_ok, Except.ok.injEq, Prod.mk.injEq] at h
    obtain ⟨hs1, hchunk⟩ := h
    have hpw : s1.paper_width = s.paper_width := by rw [← hs1]
    have hpx2 : s1.padding_x = s.padding_x := by rw [← hs1]
    have hct : s1.contents = r.1 := by rw [← hs1]
    have hidem := convertContents_idem ops s.paper_width s.padding_x hpx s.contents r.1 r.2
      (by rw [hcc])
    rw [printOnce, hpw, hpx2, hct, hidem, ep_bind_ok]
    rw [← hct, ← hchunk]

theorem c3_idempotent_print_witness :
    printOnce ops0 pstateNL = .ok (pstateNL1, chunkNL)
      ∧ printOnce ops0 pstateNL1
        = .ok ({ pstateNL1 with commands := pstateNL1.commands ++ chunkNL }, chunkNL) :=
  ⟨rfl, c3_idempotent_print ops0 pstateNL pstateNL1 chunkNL (by decide) rfl⟩

/-! ### C9: configuration errors -/

lemma wrapLines_ne_nil (measure : List Char → Int) (avail : Int) (t : List Char)
    (ht : t ≠ []) : wrapLines measure avail t ≠ [] := by
  have hinv := wrapFold_inv measure avail t [] ([], []) (wrapInv_init measure avail)
  rw [List.nil_append] at hinv
  obtain ⟨hj, -, hl, -, -⟩ := hinv
  unfold wrapLines
  by_cases hcur : (t.foldl (wrapStep measure avail) ([], [])).2 ≠ []
  · rw [if_pos hcur]; simp
  · exfalso
    have h2 : (t.foldl (wrapStep measure avail) ([], [])).2 = [] := not_not.1 hcur
    have h1 : (t.foldl (wrapStep measure avail) ([], [])).1 = [] := by
      cases hst1 : (t.foldl (wrapStep measure avail) ([], [])).1 with
      | nil => rfl
      | cons a l =>
        exfalso
        have hx : a :: l ≠ [] := by simp
        have hmem : (a :: l).getLast hx ∈ ((a :: l) : List (List Char)).getLast? := by
          rw [List.getLast?_eq_getLast _ hx]
          rfl
        rw [hst1] at hl
        exact absurd h2 ((hl _ hmem).1)
    exact ht (by rw [← hj, h1, h2]; rfl)

lemma renderTextLine_error (ops : Ops) (pw px : Nat) (t : TextN) (cs : List Char)
    (h1 : t.align ≠ "left") (h2 : t.align ≠ "center") (h3 : t.align ≠ "right") :
    renderTextLine ops pw px t cs = .error ("Unsupported alignment: " ++ t.align) := by
  rw [renderTextLine, if_neg h1, if_neg h2, if_neg h3]
  rfl

lemma mapM_error_of_all_error {ε α β : Type} (f : α → Except ε β) (e : ε)
    (he : ∀ x, f x = .error e) :
    ∀ (l : List α), l ≠ [] → l.mapM f = .error e := by
  intro l hl
  cases l with
  | nil => exact absurd rfl hl
  | cons a t => rw [List.mapM_cons, he a, ep_bind_error]

lemma toList_ne_nil (s : String) (h : s ≠ "") : s.toList ≠ [] := by
  intro hnil
  apply h
  cases s with
  | mk data =>
    have : data = [] := hnil
    rw [this]

/-- C9 (amended).  An invalid paper-width key and an invalid platform name
are raised immediately at session construction, and an invalid QR size is
raised immediately at the `qrcode` call (leaving the content list untouched);
but an invalid `Text` alignment is NOT raised at the `text` call that
introduced it — the call appends the node unconditionally and the
`ValueError` only surfaces later, when a render first processes that node
(for nonempty text). -/
theorem c9_config_errors :
    (∀ (config : PrinterConfig) usb sys, PAPER_WIDTH config.paper_width = none →
        ∃ e, mkPrinter config usb sys = .error e)
      ∧ (∀ (config : PrinterConfig) usb sys p, config.platform = some p →
          p ≠ "windows" → p ≠ "linux" → p ≠ "macos" →
          ∃ e, mkPrinter config usb sys = .error e)
      ∧ (∀ (s : PState) data size, size ≠ "sm" → size ≠ "md" → size ≠ "lg" →
          qrcodeCall s data size = .error "Invalid size. Choose sm, md, or lg.")
      ∧ (∀ (s : PState) text align font_size font line_spacing,
          (textCall s text align font_size font line_spacing).contents
            = s.contents
              ++ [.text ⟨text, align, font_size, font.getD s.default_font, line_spacing⟩])
      ∧ (∀ (ops : Ops) pw px (t : TextN), t.align ≠ "left" → t.align ≠ "center" →
          t.align ≠ "right" → t.text ≠ "" →
          escposRenderText ops pw px t
            = .error ("Unsupported alignment: " ++ t.align)) := by
  refine ⟨?_, ?_, ?_, ?_, ?_⟩
  · intro config usb sys hpw
    refine ⟨"Invalid Config: paper_width. Choose 58mm or 80mm.", ?_⟩
    rw [mkPrinter, validate_config, if_pos (by rw [hpw]; rfl)]
    exact ep_bind_error _ _
  · intro config usb sys p hp h1 h2 h3
    rw [mkPrinter, validate_config]
    by_cases hpw : (PAPER_WIDTH config.paper_width).isNone
    · exact ⟨"Invalid Config: paper_width. Choose 58mm or 80mm.",
        by rw [if_pos hpw]; exact ep_bind_error _ _⟩
    · rw [if_neg hpw, if_pos (by rw [hp]; simpa using ⟨h1, h2, h3⟩)]
      exact ⟨"Invalid Config: Unsupported platform.", ep_bind_error _ _⟩
  · intro s data size h1 h2 h3
    rw [qrcodeCall, if_neg h1, if_neg h2, if_neg h3]
    rfl
  · intro s text align font_size font line_spacing
    rw [textCall]
  · intro ops pw px t h1 h2 h3 htext
    rw [escposRenderText]
    exact mapM_error_of_all_error _ _
      (fun cs => renderTextLine_error ops pw px t cs h1 h2 h3) _
      (wrapLines_ne_nil _ _ _ (toList_ne_nil t.text htext))

theorem c9_config_errors_witness :
    (∃ e, mkPrinter ⟨"p", "100mm", "f", none, 10⟩ none "linux" = .error e)
      ∧ (∃ e, mkPrinter ⟨"p", "58mm", "f", some "beos", 10⟩ none "linux" = .error e)
      ∧ qrcodeCall pstate0 "d" "xl" = .error "Invalid size. Choose sm, md, or lg."
      ∧ (textCall pstate0 "x" "middle" 28 none 4).contents
          = [.text ⟨"x", "middle", 28, "font", 4⟩] := by
  refine ⟨?_, ?_, ?_, ?_⟩
  · exact c9_config_errors.1 ⟨"p", "100mm", "f", none, 10⟩ none "linux" rfl
  · exact c9_config_errors.2.1 ⟨"p", "58mm", "f", some "beos", 10⟩ none "linux" "beos" rfl
      (by decide) (by decide) (by decide)
  · exact c9_config_errors.2.2.1 pstate0 "d" "xl" (by decide) (by decide) (by decide)
  · exact c9_config_errors.2.2.2.1 pstate0 "x" "middle" 28 none 4

/-- C9, counterexample to the claim as stated: `text(align="middle")` — an
invalid alignment enum value — raises nothing at the call that introduced it;
the node is appended and the `ValueError` surfaces only when rendering
reaches it. -/
theorem c9_counterexample :
    textCall pstate0 "x" "middle" 28 none 4
        = { pstate0 with contents := [.text ⟨"x", "middle", 28, "font", 4⟩] }
      ∧ escposRenderText ops0 384 10 ⟨"x", "middle", 28, "font", 4⟩
        = .error "Unsupported alignment: middle" :=
  ⟨rfl, rfl⟩

/-! ### C8: `between` horizontal alignment -/

lemma wrapNeeded_false_of_le (m : Nat) (cx : Int) (w : Nat) (h : cx + (w : Int) ≤ (m : Int)) :
    wrapNeeded (some m) cx w = false := by
  rw [wrapNeeded]
  by_cases hm : m = 0
  · simp [hm]
  · have hng : ¬(cx + (w : Int) > (m : Int)) := by omega
    simp [hm, hng]

lemma placeGuarded_of_fits (m : Nat) (ig rg : Nat) (img : GrayImg) (s : LoopState)
    (h : s.current_x + (img.width : Int) ≤ (m : Int)) :
    placeGuarded (some m) ig rg img s = placeAfterCheck ig img true s := by
  rw [placeGuarded, wrapNeeded_false_of_le m s.current_x img.width h]
  rfl

lemma flexRenderImage_nomax (ops : Ops) (img : GrayImg) :
    flexRenderImage ops ⟨img, none⟩ = img := by
  rw [flexRenderImage]
  simp [truthy]

lemma c8_two_item_loop (ops : Ops) (W w1 h1 w2 h2 : Nat) (p1 p2 : Nat → Nat → Nat)
    (hfit : w1 + w2 ≤ W) :
    renderItems ops (some W) 0 0
        [.image ⟨⟨w1, h1, p1⟩, none⟩, .image ⟨⟨w2, h2, p2⟩, none⟩] ⟨[], 0, 0, 0, 0⟩
      = .ok ⟨[((0, 0), ⟨w1, h1, p1⟩), (((w1 : Int), 0), ⟨w2, h2, p2⟩)],
          (w1 : Int) + (w2 : Int), 0, max (h1 : Int) (h2 : Int), (w1 : Int) + (w2 : Int)⟩ := by
  rw [renderItems, renderItem, flexRenderImage_nomax,
    placeGuarded_of_fits W 0 0 ⟨w1, h1, p1⟩ ⟨[], 0, 0, 0, 0⟩ (by push_cast; omega)]
  rw [ep_bind_ok, renderItems, renderItem, flexRenderImage_nomax]
  rw [show placeAfterCheck 0 ⟨w1, h1, p1⟩ true ⟨[], 0, 0, 0, 0⟩
      = ⟨[((0, 0), ⟨w1, h1, p1⟩)], (w1 : Int), 0, (h1 : Int), (w1 : Int)⟩ by
    rw [placeAfterCheck]
    simp]
  rw [placeGuarded_of_fits W 0 0 ⟨w2, h2, p2⟩ _ (by push_cast; omega)]
  rw [ep_bind_ok, renderItems]
  rw [show placeAfterCheck 0 ⟨w2, h2, p2⟩ true
      ⟨[((0, 0), ⟨w1, h1, p1⟩)], (w1 : Int), 0, (h1 : Int), (w1 : Int)⟩
      = ⟨[((0, 0), ⟨w1, h1, p1⟩), (((w1 : Int), 0), ⟨w2, h2, p2⟩)],
          (w1 : Int) + (w2 : Int), 0, max (h1 : Int) (h2 : Int), (w1 : Int) + (w2 : Int)⟩ by
    rw [placeAfterCheck]
    simp]

lemma c8_between_two (W w1 w2 : Nat) (A B : GrayImg) (hw1 : 0 < w1)
    (hwA : A.width = w1) (hwB : B.width = w2) :
    betweenAlignPass (some W) [((0, 0), A), (((w1 : Int), 0), B)]
      = .ok [((0, 0), A), (((W : Int) - (w2 : Int), 0), B)] := by
  have hkeys : keysInOrder [((0, 0), A), (((w1 : Int), 0), B)] = [0] := by
    rw [keysInOrder]
    simp
  rw [betweenAlignPass, hkeys]
  simp only [List.foldlM_cons, List.foldlM_nil, List.filter_cons, List.filter_nil]
  have hne : ¬((0 : Int) = 0 ∧ (0 : Int) = (w1 : Int)) := by
    rintro ⟨-, h⟩
    omega
  have hfd : ∀ a : Int, a.fdiv 1 = a := fun a => by
    rw [Int.fdiv_eq_ediv _ (by norm_num), Int.ediv_one]
  simp [updateFirstMatching, hne, hwA, hwB, hfd]
  rw [if_neg (show ¬((0 : Int) = (w1 : Int)) from by omega)]
  have harith : (w1 : Int) + ((W : Int) - ((w1 : Int) + (w2 : Int)))
      = (W : Int) - (w2 : Int) := by ring
  rw [harith]

lemma updateFirstMatching_append (pre l : List ((Int × Int) × GrayImg)) (y ox nx : Int)
    (h : ∀ p ∈ pre, ¬(p.1.2 = y ∧ p.1.1 = ox)) :
    updateFirstMatching (pre ++ l) y ox nx = pre ++ updateFirstMatching l y ox nx := by
  induction pre with
  | nil => simp
  | cons p pre ih =>
    rw [List.cons_append, updateFirstMatching, if_neg (h p (List.mem_cons_self p pre)),
      ih (fun q hq => h q (List.mem_cons_of_mem p hq)), List.cons_append]

lemma keysInOrder_aux (y0 : Int) :
    ∀ (l : List (Int × GrayImg)) (acc : List Int), y0 ∈ acc →
      (placedRowOf y0 l).foldl
        (fun acc p => if p.1.2 ∈ acc then acc else acc ++ [p.1.2]) acc = acc := by
  intro l
  induction l with
  | nil => intro acc _; rfl
  | cons q rest ih =>
    intro acc hmem
    rw [show placedRowOf y0 (q :: rest) = ((q.1, y0), q.2) :: placedRowOf y0 rest from rfl,
      List.foldl_cons, if_pos hmem]
    exact ih acc hmem

lemma keysInOrder_row (y0 : Int) (q : Int × GrayImg) (rest : List (Int × GrayImg)) :
    keysInOrder (placedRowOf y0 (q :: rest)) = [y0] := by
  rw [keysInOrder,
    show placedRowOf y0 (q :: rest) = ((q.1, y0), q.2) :: placedRowOf y0 rest from rfl,
    List.foldl_cons, if_neg (by simp)]
  simpa using keysInOrder_aux y0 rest [y0] (by simp)

lemma placedRowOf_filter (y0 : Int) (items : List (Int × GrayImg)) :
    (placedRowOf y0 items).filter (fun p => p.1.2 = y0) = placedRowOf y0 items := by
  induction items with
  | nil => rfl
  | cons q rest ih =>
    rw [show placedRowOf y0 (q :: rest) = ((q.1, y0), q.2) :: placedRowOf y0 rest from rfl,
      List.filter_cons]
    simp [ih]

lemma placedRowOf_map (y0 : Int) (items : List (Int × GrayImg)) :
    (placedRowOf y0 items).map (fun p => (p.1.1, p.2)) = items := by
  induction items with
  | nil => rfl
  | cons q rest ih =>
    rw [show placedRowOf y0 (q :: rest) = ((q.1, y0), q.2) :: placedRowOf y0 rest from rfl,
      List.map_cons, ih]

lemma ep_pure_bind {e a b : Type} (x : a) (f : a → Except e b) :
    (pure x : Except e a) >>= f = f x := rfl

lemma ep_bind_pure {e a : Type} (x : Except e a) : x >>= pure = x := by
  cases x <;> rfl

lemma between_fold (y0 e : Int) :
    ∀ (todo : List (Int × GrayImg)) (upd : List ((Int × Int) × GrayImg)) (cx : Int),
      noCollB e cx todo = true →
      (∀ p ∈ upd, ∀ q ∈ todo, p.1.1 ≠ q.1) →
      (todo.foldl
        (fun acc q => (updateFirstMatching acc.1 y0 q.1 acc.2, acc.2 + (q.2.width : Int) + e))
        (upd ++ placedRowOf y0 todo, cx)).1
      = upd ++ betweenRowSpec y0 e cx todo := by
  intro todo
  induction todo with
  | nil =>
    intro upd cx _ _
    simp [placedRowOf, betweenRowSpec]
  | cons q rest ih =>
    intro upd cx hcol hupd
    rw [noCollB, Bool.and_eq_true, List.all_eq_true] at hcol
    obtain ⟨hhead, htail⟩ := hcol
    rw [List.foldl_cons]
    have hstep : updateFirstMatching (upd ++ placedRowOf y0 (q :: rest)) y0 q.1 cx
        = (upd ++ [((cx, y0), q.2)]) ++ placedRowOf y0 rest := by
      rw [show placedRowOf y0 (q :: rest) = ((q.1, y0), q.2) :: placedRowOf y0 rest from rfl,
        updateFirstMatching_append upd _ y0 q.1 cx
          (fun p hp hcond => hupd p hp q (List.mem_cons_self q rest) hcond.2),
        updateFirstMatching, if_pos ⟨rfl, rfl⟩]
      simp
    simp only [hstep]
    have hupd2 : ∀ p ∈ upd ++ [((cx, y0), q.2)], ∀ r ∈ rest, p.1.1 ≠ r.1 := by
      intro p hp r hr
      rcases List.mem_append.1 hp with hp1 | hp2
      · exact hupd p hp1 r (List.mem_cons_of_mem q hr)
      · rcases List.mem_singleton.1 hp2 with rfl
        exact of_decide_eq_true (hhead r hr)
    rw [ih (upd ++ [((cx, y0), q.2)]) (cx + (q.2.width : Int) + e) htail hupd2,
      betweenRowSpec]
    simp

lemma between_fold_top (y0 e : Int) (todo : List (Int × GrayImg))
    (hcol : noCollB e 0 todo = true) :
    (todo.foldl
      (fun acc q => (updateFirstMatching acc.1 y0 q.1 acc.2, acc.2 + (q.2.width : Int) + e))
      (placedRowOf y0 todo, 0)).1
      = betweenRowSpec y0 e 0 todo := by
  have h := between_fold y0 e todo [] 0 hcol (by simp)
  simpa using h

lemma betweenAlignPass_row (W : Nat) (y0 : Int) (items : List (Int × GrayImg))
    (hne : items ≠ [])
    (hcol : noCollB (betweenExtraGap W items) 0 items = true) :
    betweenAlignPass (some W) (placedRowOf y0 items)
      = .ok (betweenRowSpec y0 (betweenExtraGap W items) 0 items) := by
  obtain ⟨q, rest, rfl⟩ := List.exists_cons_of_ne_nil hne
  rw [betweenAlignPass, keysInOrder_row y0 q rest]
  simp only [List.foldlM_cons, List.foldlM_nil]
  rw [placedRowOf_filter, placedRowOf_map]
  by_cases hgap : ((q :: rest).length : Int) - 1 > 0
  · have hE : betweenExtraGap W (q :: rest)
        = ((W : Int) - (q :: rest).foldl (fun a p => a + (p.2.width : Int)) 0).fdiv
            (((q :: rest).length : Int) - 1) := by
      rw [betweenExtraGap, if_pos hgap, rowWidthSum]
    rw [hE] at hcol ⊢
    rw [if_pos hgap]
    simp only [ep_pure_bind, ep_bind_pure]
    rw [between_fold_top y0 _ (q :: rest) hcol]
    rfl
  · have hE : betweenExtraGap W (q :: rest) = 0 := by
      rw [betweenExtraGap, if_neg hgap]
    rw [hE] at hcol ⊢
    rw [if_neg hgap]
    simp only [ep_pure_bind, ep_bind_pure]
    rw [between_fold_top y0 0 (q :: rest) hcol]
    rfl

lemma betweenRowSpec_chain (y0 e : Int) :
    ∀ (items : List (Int × GrayImg)) (cx : Int),
      List.Chain' (fun p r => r.1.1 = p.1.1 + (p.2.width : Int) + e)
        (betweenRowSpec y0 e cx items) := by
  intro items
  induction items with
  | nil => intro cx; rw [betweenRowSpec]; exact List.chain'_nil
  | cons q rest ih =>
    intro cx
    rw [betweenRowSpec]
    cases rest with
    | nil => rw [betweenRowSpec]; exact List.chain'_singleton _
    | cons q2 rest2 =>
      rw [betweenRowSpec, List.chain'_cons]
      exact ⟨rfl, ih (cx + (q.2.width : Int) + e)⟩

/-- C8 (amended).  The `between` pass redistributes a row's free space as
equal extra gaps only when its first-match positional lookups resolve every
item — no already-assigned position may coincide with a later item's pending
original x (`noCollB`; the counterexample shows the pass misfires without
this proviso).  Under it, for every row of any length: the row is re-laid
with item k at `Σ_{i<k} w_i + k*e` where `e = (max_width - Σ w_i) //
(n - 1)` — the spec-side layout `betweenRowSpec`, whose consecutive items are
all separated by the same extra gap `e`; a single-item row gets no extra gap
(its item is placed at x = 0); and end-to-end, a flex of two images of widths
`w1`, `w2` in a container of width `W` ends with the items at x = 0 and
`W - w2`, i.e. with the gap exactly `W - (w1 + w2)` — 120 for the spec's
50/30/200 row. -/
theorem c8_between_alignment :
    (∀ (W : Nat) (y0 : Int) (items : List (Int × GrayImg)), items ≠ [] →
        noCollB (betweenExtraGap W items) 0 items = true →
        betweenAlignPass (some W) (placedRowOf y0 items)
          = .ok (betweenRowSpec y0 (betweenExtraGap W items) 0 items))
      ∧ (∀ (y0 e cx : Int) (items : List (Int × GrayImg)),
          List.Chain' (fun p r => r.1.1 = p.1.1 + (p.2.width : Int) + e)
            (betweenRowSpec y0 e cx items))
      ∧ (∀ (W : Nat) (y0 ox : Int) (img : GrayImg),
          betweenAlignPass (some W) [((ox, y0), img)] = .ok [((0, y0), img)])
      ∧ (∀ (ops : Ops) (W w1 h1 w2 h2 : Nat) (p1 p2 : Nat → Nat → Nat),
          0 < w1 → w1 + w2 ≤ W →
          flexLayout ops (.mk [.image ⟨⟨w1, h1, p1⟩, none⟩, .image ⟨⟨w2, h2, p2⟩, none⟩]
              0 0 "between" "top" none) (some W)
            = .ok ⟨[((0, 0), ⟨w1, h1, p1⟩), (((W : Int) - (w2 : Int), 0), ⟨w2, h2, p2⟩)],
                max (h1 : Int) (h2 : Int), (w1 : Int) + (w2 : Int)⟩) := by
  refine ⟨betweenAlignPass_row, fun y0 e cx items => betweenRowSpec_chain y0 e items cx,
    ?_, ?_⟩
  · intro W y0 ox img
    exact betweenAlignPass_row W y0 [(ox, img)] (by simp) rfl
  · intro ops W w1 h1 w2 h2 p1 p2 hw1 hfit
    rw [flexLayout]
    simp only [c8_two_item_loop ops W w1 h1 w2 h2 p1 p2 hfit, ep_bind_ok]
    rw [hAlignPass, if_neg (by decide), if_pos rfl]
    simp only [c8_between_two W w1 w2 ⟨w1, h1, p1⟩ ⟨w2, h2, p2⟩ hw1 rfl rfl, ep_bind_ok]
    simp [vAlignPass]

theorem c8_between_alignment_witness :
    betweenAlignPass (some 200)
        (placedRowOf 0 [(0, GrayImg.new 50 10 255), (50, GrayImg.new 30 10 255)])
      = .ok (betweenRowSpec 0
          (betweenExtraGap 200 [(0, GrayImg.new 50 10 255), (50, GrayImg.new 30 10 255)]) 0
          [(0, GrayImg.new 50 10 255), (50, GrayImg.new 30 10 255)])
    ∧ betweenRowSpec 0
        (betweenExtraGap 200 [(0, GrayImg.new 50 10 255), (50, GrayImg.new 30 10 255)]) 0
        [(0, GrayImg.new 50 10 255), (50, GrayImg.new 30 10 255)]
      = [((0, 0), GrayImg.new 50 10 255), ((170, 0), GrayImg.new 30 10 255)]
    ∧ (170 : Int) - (0 + 50) = 200 - (50 + 30)
    ∧ flexLayout ops0 (.mk [.image ⟨⟨50, 10, fun _ _ => 0⟩, none⟩,
          .image ⟨⟨30, 10, fun _ _ => 0⟩, none⟩] 0 0 "between" "top" none) (some 200)
        = .ok ⟨[((0, 0), ⟨50, 10, fun _ _ => 0⟩), ((170, 0), ⟨30, 10, fun _ _ => 0⟩)],
            10, 80⟩ := by
  refine ⟨c8_between_alignment.1 200 0 _ (by simp) rfl, ?_, by norm_num, ?_⟩
  · rfl
  · have h := c8_between_alignment.2.2.2 ops0 200 50 10 30 10 (fun _ _ => 0) (fun _ _ => 0)
      (by norm_num) (by norm_num)
    norm_num at h
    exact h

/-- C8, counterexample to the claim as stated: a `between` row of three
images of widths 10, 5 and 20 in a 45-wide container (free space 10, two
gaps, so the equal extra gap would be 5 and the items would sit at x = 0, 15,
25).  The pass instead yields x = 0, 25, 15: re-placing the third item
(original x = 15) the positional scan first hits the SECOND item, which had
just been moved to x = 15, moves it again, and never moves the third — the
gaps are unequal (the third item even overlaps the second), so the free space
is not redistributed as equal extra gaps between the row's items. -/
theorem c8_counterexample :
    flexLayout ops0
        (.mk [.image ⟨⟨10, 5, fun _ _ => 0⟩, none⟩, .image ⟨⟨5, 5, fun _ _ => 0⟩, none⟩,
              .image ⟨⟨20, 5, fun _ _ => 0⟩, none⟩] 0 0 "between" "top" none) (some 45)
      = .ok ⟨[((0, 0), ⟨10, 5, fun _ _ => 0⟩), ((25, 0), ⟨5, 5, fun _ _ => 0⟩),
              ((15, 0), ⟨20, 5, fun _ _ => 0⟩)], 5, 35⟩
    ∧ ((25 : Int) ≠ 0 + 10 + 5 ∧ (15 : Int) ≠ 0 + 10 + 5 + 5 + 5) := by
  refine ⟨?_, by decide, by decide⟩
  rw [flexLayout]
  simp only [renderItems, renderItem, flexRenderImage_nomax, placeGuarded, wrapNeeded,
    rowWrap, placeAfterCheck, ep_bind_ok, ep_pure_eq_ok]
  norm_num
  rw [hAlignPass, if_neg (by decide), if_pos rfl]
  simp [betweenAlignPass, keysInOrder, updateFirstMatching, vAlignPass,
    show ((45 : Int) - 35).fdiv 2 = 5 from by decide]

end EpControl
